import Mathlib

/-!
# gemma3-cpp: the streaming generation driver of `src/main.cpp`

A shallow embedding of `format_chat`, `tokenize`, `generate_stream` and `main`.
The inference engine (libllama) is external to the program, so every call into it is a field of
a record (`Engine`, `Renderer`, `Tokenizer`) that the definitions take as an argument; the
theorems quantify over all such records.  `float` values are only passed through to the engine
and are kept in an arbitrary type `F`.  Besides what the program writes, a run records the
engine calls it made, so that statements about call order can be made.
-/

namespace Gemma3

/-! ## Machine integers -/

/-- Smallest value of the C++ type `int` (32 bits). -/
def INT32_MIN : Int := -2147483648

/-- Largest value of the C++ type `int` (32 bits). -/
def INT32_MAX : Int := 2147483647

/-- Conversion of an integer value to `int`: reduction modulo `2^32` into the signed range, as
done by `(int)input.size()` and by `const int n_ctx = llama_n_ctx(ctx)` (a `uint32_t`). -/
def toInt32 (x : Int) : Int := (x + 2147483648) % 4294967296 - 2147483648

/-- Conversion of an `int32_t` to `uint32_t`, as done when `opt.seed` is handed to
`llama_sampler_init_dist (uint32_t seed)`. -/
def toUInt32 (x : Int) : Int := x % 4294967296

/-- Signed `int` addition as the compiled program performs it: the sum is reduced modulo
`2^32` into the signed range (two's complement wrap-around).  The C++ standard leaves the
overflowing case undefined; the program has no branch for it and goes on with the wrapped
value. -/
def add32 (a b : Int) : Int := toInt32 (a + b)

/-- Signed `int` negation; `none` when the result is not representable. -/
def neg32 (a : Int) : Option Int :=
  if INT32_MIN ≤ -a ∧ -a ≤ INT32_MAX then some (-a) else none

/-! ## Data model -/

/-- A token identifier (`typedef int32_t llama_token`). -/
abbrev llama_token := Int

/-- The `Options` record of `main.cpp`. -/
structure Options (F : Type) where
  model_path : String
  prompt : Option String
  system : String
  n_ctx : Int
  n_predict : Int
  threads : Int
  seed : Int
  temp : F
  top_k : Int
  top_p : F
  min_p : F
  color : Bool

/-- One stage of a sampler chain, named after the `llama_sampler_init_*` constructor that
creates it, with the arguments it was created with. -/
inductive llama_sampler (F : Type) where
  | top_k (k : Int)
  | top_p (p : F) (min_keep : Nat)
  | min_p (p : F) (min_keep : Nat)
  | temp (t : F)
  | dist (seed : Int)
  deriving DecidableEq, Repr

/-- The empty chain returned by `llama_sampler_chain_init`. -/
def llama_sampler_chain_init (F : Type) : List (llama_sampler F) := []

/-- The call `llama_sampler_chain_add (chain, smpl)` puts a stage at the end of the chain. -/
def llama_sampler_chain_add {F : Type} (chain : List (llama_sampler F)) (smpl : llama_sampler F) :
    List (llama_sampler F) :=
  chain ++ [smpl]

/-- The fields of `llama_batch` that `llama_batch_get_one` sets. -/
structure llama_batch where
  token : List llama_token
  n_tokens : Int
  deriving DecidableEq, Repr

/-- The call `llama_batch_get_one (tokens, n_tokens)`. -/
def llama_batch_get_one (tokens : List llama_token) (n_tokens : Int) : llama_batch :=
  { token := tokens, n_tokens := n_tokens }

/-- The part of libllama that `generate_stream` calls.  `σ` is the state behind the
`llama_context *` together with the random state of the sampler chain; calls that take the
`const llama_vocab *` are functions of their arguments alone. -/
structure Engine (σ F : Type) where
  /-- Result of `llama_n_ctx (ctx)`, a `uint32_t`. -/
  llama_n_ctx : σ → Nat
  /-- Result of `llama_memory_seq_pos_max (llama_get_memory (ctx), seq_id)`. -/
  llama_memory_seq_pos_max : σ → Int → Int
  /-- Result of `llama_decode (ctx, batch)`: the new state and the status. -/
  llama_decode : σ → llama_batch → σ × Int
  /-- Result of `llama_sampler_sample (smpl, ctx, idx)`: the new state and the token. -/
  llama_sampler_sample : List (llama_sampler F) → σ → Int → σ × llama_token
  /-- Result of `llama_vocab_is_eog (v, tok)`. -/
  llama_vocab_is_eog : llama_token → Bool
  /-- Result of `llama_token_to_piece (v, tok, buf, length, special, lstrip)`, the last two
  arguments named as the call site names them: the returned count and the bytes left in
  `buf`. -/
  llama_token_to_piece : llama_token → Int → Int → Bool → Int × List Char

/-- What is written to `std::cout`: an ANSI colour sequence or the text of one token. -/
inductive Out where
  | esc (code : String)
  | piece (text : List Char)
  | endl
  deriving DecidableEq, Repr

/-- What is written to `std::cerr`. -/
inductive Diag where
  /-- The line `[context exceeded; stopping]`. -/
  | context_exceeded
  /-- The line `llama_decode failed, ret=` followed by the status. -/
  | decode_failed (ret : Int)
  /-- The line `No prompt provided`. -/
  | no_prompt
  /-- The line `Failed to load model: ` followed by the path. -/
  | load_failed (path : String)
  /-- The line `Failed to create llama_context`. -/
  | context_failed
  /-- The line `Chat templating failed: ` followed by the message of the exception. -/
  | templating_failed (what : String)
  deriving DecidableEq, Repr

/-- A call that changes or consumes engine state, with the state it was issued in. -/
inductive Call (σ F : Type) where
  | decode (ctx : σ) (batch : llama_batch) (ret : Int)
  | sample (smpl : List (llama_sampler F)) (ctx : σ) (idx : Int) (tok : llama_token)

/-- The `break` through which the loop of `generate_stream` was left. -/
inductive Stop where
  | context_exceeded
  | decode_failed
  | eog
  | piece_negative
  | budget
  deriving DecidableEq, Repr

/-- The variables of `generate_stream` that live across loop iterations. -/
structure LoopState (σ : Type) where
  ctx : σ
  batch : llama_batch
  generated : Int

/-- Everything one run of the loop (or one iteration of it) did: the writes to the two
streams, the engine calls in order, the engine state it ended in, the `break` taken and the
number of iterations started. -/
structure Run (σ F : Type) where
  out : List Out
  err : List Diag
  calls : List (Call σ F)
  ctx : σ
  stop : Stop
  iterations : Nat

/-- Result of one pass through the loop body: it ended in a `break`, or control goes back to
the top with a new loop state. -/
inductive Step (σ F : Type) where
  | stop (r : Run σ F)
  | next (out : List Out) (calls : List (Call σ F)) (st : LoopState σ)

/-! ## `generate_stream` -/

/-- The sampler chain built at the top of `generate_stream` (lines 156-161). -/
def sampler_chain {F : Type} (opt : Options F) : List (llama_sampler F) :=
  let smpl := llama_sampler_chain_init F
  let smpl := llama_sampler_chain_add smpl (llama_sampler.top_k opt.top_k)
  let smpl := llama_sampler_chain_add smpl (llama_sampler.top_p opt.top_p 1)
  let smpl := llama_sampler_chain_add smpl (llama_sampler.min_p opt.min_p 1)
  let smpl := llama_sampler_chain_add smpl (llama_sampler.temp opt.temp)
  let smpl := llama_sampler_chain_add smpl (llama_sampler.dist (toUInt32 opt.seed))
  smpl

/-- The writes of lines 189-191 for one piece. -/
def stream_piece (color : Bool) (piece : List Char) : List Out :=
  (if color then [Out.esc "\x1b[33m"] else []) ++ [Out.piece piece] ++
    (if color then [Out.esc "\x1b[0m"] else [])

/-- One pass through the body of `while (true)` in `generate_stream` (lines 166-197).  The two
additions of the context check are `int` additions and wrap around when they overflow;
`++generated` cannot overflow, because the loop is left as soon as `generated` reaches
`opt.n_predict`. -/
def iteration {σ F : Type} (e : Engine σ F) (opt : Options F) (smpl : List (llama_sampler F))
    (st : LoopState σ) : Step σ F :=
  let n_ctx := toInt32 (e.llama_n_ctx st.ctx)
  let n_ctx_used := add32 (e.llama_memory_seq_pos_max st.ctx 0) 1
  if add32 n_ctx_used st.batch.n_tokens > n_ctx then
    Step.stop ⟨[], [Diag.context_exceeded], [], st.ctx, Stop.context_exceeded, 1⟩
  else
    let d := e.llama_decode st.ctx st.batch
    let ret := d.2
    if ret ≠ 0 then
      Step.stop ⟨[], [Diag.decode_failed ret], [Call.decode st.ctx st.batch ret], d.1,
        Stop.decode_failed, 1⟩
    else
      let s := e.llama_sampler_sample smpl d.1 (-1)
      let tok := s.2
      let calls := [Call.decode st.ctx st.batch ret, Call.sample smpl d.1 (-1) tok]
      if e.llama_vocab_is_eog tok then
        Step.stop ⟨[], [], calls, s.1, Stop.eog, 1⟩
      else
        let p := e.llama_token_to_piece tok 256 0 true
        let n := p.1
        if n < 0 then
          Step.stop ⟨[], [], calls, s.1, Stop.piece_negative, 1⟩
        else
          let piece := p.2.take n.toNat
          let out := stream_piece opt.color piece
          let batch := llama_batch_get_one [tok] 1
          let generated := st.generated + 1
          if generated ≥ opt.n_predict then
            Step.stop ⟨out, [], calls, s.1, Stop.budget, 1⟩
          else
            Step.next out calls ⟨s.1, batch, generated⟩

/-- The loop `while (true)` of `generate_stream`: passes through the body until one of them
ends in a `break`.  The recursion is well founded because every pass that continues moves
`generated` one closer to `opt.n_predict`. -/
def loop {σ F : Type} (e : Engine σ F) (opt : Options F) (smpl : List (llama_sampler F))
    (st : LoopState σ) : Run σ F :=
  match h : iteration e opt smpl st with
  | Step.stop r => r
  | Step.next out calls st1 =>
    let r := loop e opt smpl st1
    ⟨out ++ r.out, r.err, calls ++ r.calls, r.ctx, r.stop, r.iterations + 1⟩
termination_by (opt.n_predict - st.generated).toNat
decreasing_by
  have hg : st1.generated = st.generated + 1 ∧ st1.generated < opt.n_predict := by
    unfold iteration at h
    simp only at h
    split_ifs at h with h1 h2 h3 h4 h5
    simp only [Step.next.injEq] at h
    obtain ⟨-, -, rfl⟩ := h
    exact ⟨rfl, by simpa using h5⟩
  omega

/-- The function `generate_stream (ctx, v, input, opt)`: the prompt is submitted as one batch,
the sampler chain is built, and the loop runs from `generated = 0`. -/
def generate_stream {σ F : Type} (e : Engine σ F) (ctx : σ) (input : List llama_token)
    (opt : Options F) : Run σ F :=
  let batch := llama_batch_get_one input (toInt32 input.length)
  let smpl := sampler_chain opt
  loop e opt smpl ⟨ctx, batch, 0⟩

/-! ## `format_chat` and `tokenize` -/

/-- The template renderer of libllama.  `ρ` is whatever state decides its answers, so that two
calls with the same arguments may answer differently. -/
structure Renderer (ρ : Type) where
  /-- Result of `llama_model_chat_template (model, nullptr)`; `none` is the null pointer. -/
  llama_model_chat_template : Option String
  /-- Result of `llama_chat_apply_template (tmpl, chat, n_msg, add_ass, buf, length)`: the new
  state, the returned length and the bytes written to `buf` from its start.  The flag before
  the length tells whether `buf` is a buffer (`true`) or the null pointer. -/
  llama_chat_apply_template :
    ρ → Option String → List (String × String) → Int → Bool → Bool → Int → ρ × Int × List Char

/-- The tokenizer of libllama, with state `τ` for the same reason as `Renderer`. -/
structure Tokenizer (τ : Type) where
  /-- Result of `llama_tokenize (vocab, text, text_len, tokens, n_tokens_max, add_special,
  parse_special)`: the new state, the returned count and the tokens written to `tokens` from
  its start.  The flag before `n_tokens_max` tells whether `tokens` is a buffer or null. -/
  llama_tokenize :
    τ → List Char → Int → Bool → Int → Bool → Bool → τ × Int × List llama_token

/-- A buffer after a callee wrote `w` from its start: writes past the end do not land in it,
cells behind the written part keep their content. -/
def write_buf {α : Type} (buf w : List α) : List α :=
  w.take buf.length ++ buf.drop w.length

/-- How a function of the program can end: with a value, with a `std::runtime_error`, or in
undefined behaviour (signed overflow). -/
inductive Result (α : Type) where
  | ok (a : α)
  | throw (what : String)
  | undefined
  deriving DecidableEq, Repr

/-- One call of a sizing-protocol function: whether a buffer was passed, the capacity passed,
and the value returned. -/
structure ApiCall where
  buf : Bool
  size : Int
  ret : Int
  deriving DecidableEq, Repr

/-- What a run of `format_chat` or `tokenize` did: the calls it made, the callee state it
left, and how it ended. -/
structure Outcome (κ α : Type) where
  calls : List ApiCall
  state : κ
  result : Result α

/-- The function `format_chat (model, system, user)` (lines 112-132). -/
def format_chat {ρ : Type} (r : Renderer ρ) (s0 : ρ) (system user : String) :
    Outcome ρ (List Char) :=
  let tmpl := r.llama_model_chat_template
  let msgs := [("system", system), ("user", user)]
  let c1 := r.llama_chat_apply_template s0 tmpl msgs (toInt32 msgs.length) true false 0
  let needed := c1.2.1
  if needed < 0 then
    ⟨[⟨false, 0, needed⟩], c1.1, Result.throw "failed to apply chat template (sizing)"⟩
  else
    let out := List.replicate needed.toNat (Char.ofNat 0)
    let c2 := r.llama_chat_apply_template c1.1 tmpl msgs (toInt32 msgs.length) true true
      (toInt32 out.length)
    let written := c2.2.1
    let out := write_buf out c2.2.2
    let calls := [⟨false, 0, needed⟩, ⟨true, toInt32 (List.replicate needed.toNat (Char.ofNat 0)).length, written⟩]
    if written < 0 then
      ⟨calls, c2.1, Result.throw "failed to apply chat template (format)"⟩
    else
      ⟨calls, c2.1, Result.ok out⟩

/-- The function `tokenize (v, s, add_bos)` (lines 137-144). -/
def tokenize {τ : Type} (t : Tokenizer τ) (s0 : τ) (s : List Char) (add_bos : Bool) :
    Outcome τ (List llama_token) :=
  let c1 := t.llama_tokenize s0 s (toInt32 s.length) false 0 add_bos true
  match neg32 c1.2.1 with
  | none => ⟨[⟨false, 0, c1.2.1⟩], c1.1, Result.undefined⟩
  | some n =>
    if n ≤ 0 then
      ⟨[⟨false, 0, c1.2.1⟩], c1.1, Result.ok []⟩
    else
      let ids := List.replicate n.toNat (0 : llama_token)
      let c2 := t.llama_tokenize c1.1 s (toInt32 s.length) true (toInt32 ids.length) add_bos true
      let ret := c2.2.1
      let calls := [⟨false, 0, c1.2.1⟩, ⟨true, toInt32 ids.length, ret⟩]
      let ids := write_buf ids c2.2.2
      if ret < 0 then
        ⟨calls, c2.1, Result.throw "tokenize failed"⟩
      else
        ⟨calls, c2.1, Result.ok ids⟩

/-! ## `main` -/

/-- How `parse_args` ended: it called `exit`, it returned `false`, or it returned `true` with
the options filled in. -/
inductive ParseOutcome (F : Type) where
  | exit (code : Int)
  | fail
  | ok (opt : Options F)

/-- Everything outside the program that `main` depends on. -/
structure World (σ ρ τ F : Type) where
  parse_args : ParseOutcome F
  /-- The line `std::getline (std::cin, line)` reads; `none` when it fails. -/
  getline : Option String
  /-- Whether `llama_model_load_from_file` returned a model. -/
  model_loaded : Bool
  /-- Whether `llama_init_from_model` returned a context. -/
  context_created : Bool
  renderer : Renderer ρ
  renderer_state : ρ
  tokenizer : Tokenizer τ
  tokenizer_state : τ
  engine : Engine σ F
  ctx : σ

/-- How the process ends: `main` returns a code, or an exception leaves `main` uncaught
(`std::terminate`), or behaviour is undefined. -/
inductive ExitStatus where
  | code (n : Int)
  | terminate
  | undefined
  deriving DecidableEq, Repr

/-- What a run of `main` wrote after `parse_args` and how the process ended. -/
structure MainRun where
  out : List Out
  err : List Diag
  exit : ExitStatus
  deriving DecidableEq, Repr

/-- The function `main` (lines 203-271).  What `parse_args` prints is not recorded. -/
def main {σ ρ τ F : Type} (w : World σ ρ τ F) : MainRun :=
  match w.parse_args with
  | ParseOutcome.exit code => ⟨[], [], ExitStatus.code code⟩
  | ParseOutcome.fail => ⟨[], [], ExitStatus.code 2⟩
  | ParseOutcome.ok opt0 =>
    match (match opt0.prompt with | some p => some p | none => w.getline) with
    | none => ⟨[], [Diag.no_prompt], ExitStatus.code 2⟩
    | some prompt =>
      let opt : Options F := { opt0 with prompt := some prompt }
      if !w.model_loaded then
        ⟨[], [Diag.load_failed opt.model_path], ExitStatus.code 1⟩
      else if !w.context_created then
        ⟨[], [Diag.context_failed], ExitStatus.code 1⟩
      else
        match (format_chat w.renderer w.renderer_state opt.system prompt).result with
        | Result.throw what => ⟨[], [Diag.templating_failed what], ExitStatus.code 1⟩
        | Result.undefined => ⟨[], [], ExitStatus.undefined⟩
        | Result.ok formatted =>
          match (tokenize w.tokenizer w.tokenizer_state formatted true).result with
          | Result.throw _ => ⟨[], [], ExitStatus.terminate⟩
          | Result.undefined => ⟨[], [], ExitStatus.undefined⟩
          | Result.ok toks =>
            let r := generate_stream w.engine w.ctx toks opt
            ⟨(if opt.color then [Out.esc "\x1b[1;32m"] else []) ++ r.out ++
              (if opt.color then [Out.esc "\x1b[0m"] else []) ++ [Out.endl], r.err,
              ExitStatus.code 0⟩

/-! ## Observations on a run -/

/-- The tokens returned by the `llama_sampler_sample` calls of a run, in order. -/
def sampled {σ F : Type} (calls : List (Call σ F)) : List llama_token :=
  calls.filterMap fun c =>
    match c with
    | Call.sample _ _ _ tok => some tok
    | Call.decode _ _ _ => none

/-- The batches handed to the `llama_decode` calls of a run, in order. -/
def submitted {σ F : Type} (calls : List (Call σ F)) : List llama_batch :=
  calls.filterMap fun c =>
    match c with
    | Call.decode _ b _ => some b
    | Call.sample _ _ _ _ => none

/-- The statuses returned by the `llama_decode` calls of a run, in order. -/
def statuses {σ F : Type} (calls : List (Call σ F)) : List Int :=
  calls.filterMap fun c =>
    match c with
    | Call.decode _ _ ret => some ret
    | Call.sample _ _ _ _ => none

/-- The fragments streamed to `std::cout`: the token texts, without the colour sequences. -/
def fragments (out : List Out) : List (List Char) :=
  out.filterMap fun o =>
    match o with
    | Out.piece p => some p
    | _ => none

/-- The text `std::string piece (buf, n)` of a token, from the detokenizer call of line 186
(buffer of 256 bytes, `special` 0, `lstrip` true). -/
def piece_of {σ F : Type} (e : Engine σ F) (tok : llama_token) : List Char :=
  (e.llama_token_to_piece tok 256 0 true).2.take (e.llama_token_to_piece tok 256 0 true).1.toNat

/-- A sampled token that ends the loop before anything is written for it: an
end-of-generation marker, or a token whose detokenization reports a negative length. -/
def terminal {σ F : Type} (e : Engine σ F) (tok : llama_token) : Bool :=
  e.llama_vocab_is_eog tok || decide ((e.llama_token_to_piece tok 256 0 true).1 < 0)

/-- The number of sampled tokens that count against the budget: all of them except an
end-of-generation token. -/
def counted {σ F : Type} (e : Engine σ F) (calls : List (Call σ F)) : Nat :=
  ((sampled calls).filter fun t => !e.llama_vocab_is_eog t).length

/-- The shape of a call sequence in which sampling happens exactly once right after each
`llama_decode` that returned 0 and nowhere else: a decode with status 0 is followed by one
sample call, a decode with another status is the last call. -/
def alternates {σ F : Type} : List (Call σ F) → Bool
  | [] => true
  | [Call.decode _ _ ret] => ret != 0
  | Call.decode _ _ ret :: Call.sample _ _ _ _ :: rest => ret == 0 && alternates rest
  | _ => false

/-- The value `n_ctx_used + batch.n_tokens` that line 169 compares with the capacity, for a
batch submitted in an engine state: both additions are `int` additions. -/
def check_sum {σ F : Type} (e : Engine σ F) (ctx : σ) (batch : llama_batch) : Int :=
  add32 (add32 (e.llama_memory_seq_pos_max ctx 0) 1) batch.n_tokens

/-- The context check of lines 167-169 lets this loop state through: the sum it computes is
not above the capacity read as an `int`. -/
def passes {σ F : Type} (e : Engine σ F) (st : LoopState σ) : Prop :=
  check_sum e st.ctx st.batch ≤ toInt32 (e.llama_n_ctx st.ctx)

/-- Position counter plus batch size, as integers, is at most the capacity read as an `int` in
this loop state. -/
def fits {σ F : Type} (e : Engine σ F) (st : LoopState σ) : Prop :=
  e.llama_memory_seq_pos_max st.ctx 0 + 1 + st.batch.n_tokens ≤ toInt32 (e.llama_n_ctx st.ctx)

/-- The additions of line 168 and line 169 do not overflow in this loop state. -/
def in_range {σ F : Type} (e : Engine σ F) (st : LoopState σ) : Prop :=
  (INT32_MIN ≤ e.llama_memory_seq_pos_max st.ctx 0 + 1 ∧
    e.llama_memory_seq_pos_max st.ctx 0 + 1 ≤ INT32_MAX) ∧
  (INT32_MIN ≤ e.llama_memory_seq_pos_max st.ctx 0 + 1 + st.batch.n_tokens ∧
    e.llama_memory_seq_pos_max st.ctx 0 + 1 + st.batch.n_tokens ≤ INT32_MAX)

/-- The answer of `llama_decode` to the batch of this loop state. -/
abbrev decoded {σ F : Type} (e : Engine σ F) (st : LoopState σ) : σ × Int :=
  e.llama_decode st.ctx st.batch

/-- The answer of `llama_sampler_sample` after the batch of this loop state was decoded. -/
abbrev drawn {σ F : Type} (e : Engine σ F) (smpl : List (llama_sampler F)) (st : LoopState σ) :
    σ × llama_token :=
  e.llama_sampler_sample smpl (decoded e st).1 (-1)

/-- The two engine calls of a pass in which the decode returned 0. -/
def pass_calls {σ F : Type} (e : Engine σ F) (smpl : List (llama_sampler F))
    (st : LoopState σ) : List (Call σ F) :=
  [Call.decode st.ctx st.batch 0, Call.sample smpl (decoded e st).1 (-1) (drawn e smpl st).2]

/-! ## Concrete engines -/

/-- State of the scripted engine: tokens held in the context, and how many decode and sample
calls it has served. -/
structure Sim where
  pos : Int
  decodes : Nat
  samples : Nat
  deriving DecidableEq, Repr

/-- A scripted engine with capacity `cap`: the `i`-th decode returns `rets i` and, when that is
0, takes the batch into the context; the `i`-th sample call returns `toks i`; `eog` is the only
end-of-generation token; a negative token has no text, token `t ≥ 0` is the letter number
`t` after `a`. -/
def simEngine (F : Type) (cap : Nat) (rets : Nat → Int) (toks : Nat → llama_token)
    (eog : llama_token) : Engine Sim F where
  llama_n_ctx := fun _ => cap
  llama_memory_seq_pos_max := fun s _ => s.pos - 1
  llama_decode := fun s b =>
    (if rets s.decodes = 0 then ⟨s.pos + b.n_tokens, s.decodes + 1, s.samples⟩
      else ⟨s.pos, s.decodes + 1, s.samples⟩, rets s.decodes)
  llama_sampler_sample := fun _ s _ => (⟨s.pos, s.decodes, s.samples + 1⟩, toks s.samples)
  llama_vocab_is_eog := fun t => t == eog
  llama_token_to_piece := fun t _ _ _ =>
    if t < 0 then (-1, []) else (1, [Char.ofNat (97 + t.toNat)])

/-- The scripted engine whose decodes all return 0 and whose sample calls all return token 7
(the letter `h`); token 1 is the end-of-generation token. -/
def echoEngine (F : Type) (cap : Nat) : Engine Sim F :=
  simEngine F cap (fun _ => 0) (fun _ => 7) 1

/-- The scripted engine whose first sample call already returns the end-of-generation
token 1. -/
def eogEngine (F : Type) (cap : Nat) : Engine Sim F :=
  simEngine F cap (fun _ => 0) (fun _ => 1) 1

/-- The scripted engine whose decodes all return status 1. -/
def failEngine (F : Type) (cap : Nat) : Engine Sim F :=
  simEngine F cap (fun _ => 1) (fun _ => 7) 1

/-- The fresh state of the scripted engine: empty context. -/
def simFresh : Sim := ⟨0, 0, 0⟩

/-- Options with the defaults of `main.cpp` except for `n_predict` and no colour. -/
def simOptions (n_predict : Int) : Options Unit :=
  { model_path := "model.gguf", prompt := some "2+2=", system := "You are terse.",
    n_ctx := 8192, n_predict := n_predict, threads := 1, seed := 42, temp := (),
    top_k := 40, top_p := (), min_p := (), color := false }

/-- A renderer that answers `first` to its first call and `later` to every other call, and
writes nothing.  Its state counts the calls. -/
def simRenderer (first later : Int) : Renderer Nat where
  llama_model_chat_template := some "gemma"
  llama_chat_apply_template := fun n _ _ _ _ _ _ => (n + 1, if n = 0 then first else later, [])

/-- A tokenizer that answers `first` to its first call and `later` to every other call, and
writes `written` when it is given a buffer.  Its state counts the calls. -/
def simTokenizer (first later : Int) (written : List llama_token) : Tokenizer Nat where
  llama_tokenize := fun n _ _ buf _ _ _ =>
    (n + 1, if n = 0 then first else later, if buf then written else [])

/-- A world in which everything up to `generate_stream` succeeds: the prompt tokenizes to
`[5, 6]` and the engine is the scripted one. -/
def simWorld (n_predict : Int) (cap : Nat) (rets : Nat → Int) (toks : Nat → llama_token)
    (eog : llama_token) : World Sim Nat Nat Unit :=
  { parse_args := ParseOutcome.ok (simOptions n_predict), getline := none,
    model_loaded := true, context_created := true,
    renderer := simRenderer 0 0, renderer_state := 0,
    tokenizer := simTokenizer (-2) 2 [5, 6], tokenizer_state := 0,
    engine := simEngine Unit cap rets toks eog, ctx := simFresh }

/-! ## The loop body, case by case -/

/-- Unfolding of `loop` by one pass through the body. -/
theorem loop_eq {σ F : Type} (e : Engine σ F) (opt : Options F) (smpl : List (llama_sampler F))
    (st : LoopState σ) :
    loop e opt smpl st =
      match iteration e opt smpl st with
      | Step.stop r => r
      | Step.next out calls st1 =>
        ⟨out ++ (loop e opt smpl st1).out, (loop e opt smpl st1).err,
          calls ++ (loop e opt smpl st1).calls, (loop e opt smpl st1).ctx,
          (loop e opt smpl st1).stop, (loop e opt smpl st1).iterations + 1⟩ := by
  rw [loop]
  split <;> rename_i h <;> simp [h]

/-- A pass that goes back to the top of the loop: the check passed, the decode returned 0, the
sampled token is not terminal, its text was written, it is the next batch, and the budget is
not yet reached. -/
theorem iteration_next {σ F : Type} {e : Engine σ F} {opt : Options F}
    {smpl : List (llama_sampler F)} {st st1 : LoopState σ} {out : List Out}
    {calls : List (Call σ F)} (h : iteration e opt smpl st = Step.next out calls st1) :
    passes e st ∧ (decoded e st).2 = 0 ∧ terminal e (drawn e smpl st).2 = false ∧
    out = stream_piece opt.color (piece_of e (drawn e smpl st).2) ∧
    calls = pass_calls e smpl st ∧
    st1 = ⟨(drawn e smpl st).1, llama_batch_get_one [(drawn e smpl st).2] 1,
      st.generated + 1⟩ ∧
    st.generated + 1 < opt.n_predict := by
  unfold iteration at h
  simp only at h
  split_ifs at h with h1 h2 h3 h4 h5
  simp only [Step.next.injEq] at h
  obtain ⟨rfl, rfl, rfl⟩ := h
  simp only [ne_eq, Decidable.not_not] at h2
  refine ⟨?_, h2, ?_, rfl, ?_, rfl, ?_⟩
  · simp only [passes, check_sum]; omega
  · simp [terminal, drawn, decoded, h3]; omega
  · simp only [pass_calls, decoded, drawn]; rw [h2]
  · omega

/-- A pass that ends in a `break`, by the `break` taken. -/
theorem iteration_stop {σ F : Type} {e : Engine σ F} {opt : Options F}
    {smpl : List (llama_sampler F)} {st : LoopState σ} {r : Run σ F}
    (h : iteration e opt smpl st = Step.stop r) :
    r.iterations = 1 ∧
    ((r.calls = [] ∧ r.out = [] ∧ r.err = [Diag.context_exceeded] ∧ r.ctx = st.ctx ∧
        r.stop = Stop.context_exceeded ∧ ¬ passes e st) ∨
     (passes e st ∧ (decoded e st).2 ≠ 0 ∧
        r.calls = [Call.decode st.ctx st.batch (decoded e st).2] ∧ r.out = [] ∧
        r.err = [Diag.decode_failed (decoded e st).2] ∧ r.ctx = (decoded e st).1 ∧
        r.stop = Stop.decode_failed) ∨
     (passes e st ∧ (decoded e st).2 = 0 ∧ r.calls = pass_calls e smpl st ∧
        terminal e (drawn e smpl st).2 = true ∧ r.out = [] ∧ r.err = [] ∧
        r.ctx = (drawn e smpl st).1 ∧
        (r.stop = Stop.eog ∧ e.llama_vocab_is_eog (drawn e smpl st).2 = true ∨
         r.stop = Stop.piece_negative ∧ e.llama_vocab_is_eog (drawn e smpl st).2 = false)) ∨
     (passes e st ∧ (decoded e st).2 = 0 ∧ r.calls = pass_calls e smpl st ∧
        terminal e (drawn e smpl st).2 = false ∧
        r.out = stream_piece opt.color (piece_of e (drawn e smpl st).2) ∧ r.err = [] ∧
        r.ctx = (drawn e smpl st).1 ∧ r.stop = Stop.budget ∧
        opt.n_predict ≤ st.generated + 1)) := by
  unfold iteration at h
  simp only at h
  split_ifs at h with h1 h2 h3 h4 h5
  · simp only [Step.stop.injEq] at h
    subst h
    refine ⟨rfl, Or.inl ⟨rfl, rfl, rfl, rfl, rfl, ?_⟩⟩
    simp only [passes, check_sum]; omega
  · simp only [Step.stop.injEq] at h
    subst h
    refine ⟨rfl, Or.inr (Or.inl ⟨?_, h2, rfl, rfl, rfl, rfl, rfl⟩)⟩
    simp only [passes, check_sum]; omega
  · simp only [ne_eq, Decidable.not_not] at h2
    simp only [Step.stop.injEq] at h
    subst h
    refine ⟨rfl, Or.inr (Or.inr (Or.inl
      ⟨?_, h2, ?_, ?_, rfl, rfl, rfl, Or.inl ⟨rfl, h3⟩⟩))⟩
    · simp only [passes, check_sum]; omega
    · simp only [pass_calls, decoded, drawn]; rw [h2]
    · simp [terminal, drawn, decoded, h3]
  · simp only [ne_eq, Decidable.not_not] at h2
    simp only [Step.stop.injEq] at h
    subst h
    refine ⟨rfl, Or.inr (Or.inr (Or.inl
      ⟨?_, h2, ?_, ?_, rfl, rfl, rfl, Or.inr ⟨rfl, by simpa using h3⟩⟩))⟩
    · simp only [passes, check_sum]; omega
    · simp only [pass_calls, decoded, drawn]; rw [h2]
    · simp [terminal, drawn, decoded, h4]
  · simp only [ne_eq, Decidable.not_not] at h2
    simp only [Step.stop.injEq] at h
    subst h
    refine ⟨rfl, Or.inr (Or.inr (Or.inr
      ⟨?_, h2, ?_, ?_, rfl, rfl, rfl, rfl, ?_⟩))⟩
    · simp only [passes, check_sum]; omega
    · simp only [pass_calls, decoded, drawn]; rw [h2]
    · simp [terminal, drawn, decoded, h3]; omega
    · omega

/-! ## The loop body, forwards -/

/-- A value in the range of `int` is unchanged by the conversion to `int`. -/
theorem toInt32_of_range (x : Int) (h0 : INT32_MIN ≤ x) (h1 : x ≤ INT32_MAX) :
    toInt32 x = x := by
  unfold INT32_MIN at h0
  unfold INT32_MAX at h1
  unfold toInt32
  omega

/-- When neither addition of the context check overflows, the sum it computes is position
counter plus batch size. -/
theorem check_sum_in_range {σ F : Type} {e : Engine σ F} {st : LoopState σ}
    (hr : in_range e st) :
    check_sum e st.ctx st.batch =
      e.llama_memory_seq_pos_max st.ctx 0 + 1 + st.batch.n_tokens := by
  obtain ⟨⟨h1, h2⟩, h3, h4⟩ := hr
  simp only [check_sum, add32]
  rw [toInt32_of_range _ h1 h2, toInt32_of_range _ h3 h4]

/-- When neither addition overflows, the check lets through exactly the states in which
position counter plus batch size is at most the capacity. -/
theorem passes_of_fits {σ F : Type} {e : Engine σ F} {st : LoopState σ}
    (hr : in_range e st) (hf : fits e st) : passes e st := by
  unfold passes
  rw [check_sum_in_range hr]
  exact hf

/-- When neither addition overflows, the check stops the states in which position counter plus
batch size is above the capacity. -/
theorem not_passes_of_not_fits {σ F : Type} {e : Engine σ F} {st : LoopState σ}
    (hr : in_range e st) (hf : ¬ fits e st) : ¬ passes e st := by
  unfold passes
  rw [check_sum_in_range hr]
  exact hf

/-- The pass that takes the context-overflow `break`. -/
theorem iteration_overflow {σ F : Type} {e : Engine σ F} (opt : Options F)
    (smpl : List (llama_sampler F)) {st : LoopState σ} (hp : ¬ passes e st) :
    iteration e opt smpl st =
      Step.stop ⟨[], [Diag.context_exceeded], [], st.ctx, Stop.context_exceeded, 1⟩ := by
  simp only [passes, check_sum, not_le] at hp
  have hgt : add32 (add32 (e.llama_memory_seq_pos_max st.ctx 0) 1) st.batch.n_tokens >
      toInt32 (e.llama_n_ctx st.ctx) := hp
  simp only [iteration, hgt, if_true]

/-- The pass in which `llama_decode` returns a non-zero status. -/
theorem iteration_decode_failed {σ F : Type} {e : Engine σ F} (opt : Options F)
    (smpl : List (llama_sampler F)) {st : LoopState σ} (hp : passes e st)
    (hd : (decoded e st).2 ≠ 0) :
    iteration e opt smpl st =
      Step.stop ⟨[], [Diag.decode_failed (decoded e st).2],
        [Call.decode st.ctx st.batch (decoded e st).2], (decoded e st).1,
        Stop.decode_failed, 1⟩ := by
  simp only [passes, check_sum] at hp
  have hgt : ¬ (add32 (add32 (e.llama_memory_seq_pos_max st.ctx 0) 1) st.batch.n_tokens >
      toInt32 (e.llama_n_ctx st.ctx)) := by omega
  simp only [decoded] at hd
  simp only [iteration, hgt, if_false, hd, ne_eq, not_false_eq_true, if_true, decoded]

/-- The pass in which the sampled token is an end-of-generation token. -/
theorem iteration_eog {σ F : Type} {e : Engine σ F} (opt : Options F)
    (smpl : List (llama_sampler F)) {st : LoopState σ} (hp : passes e st)
    (hd : (decoded e st).2 = 0) (ht : e.llama_vocab_is_eog (drawn e smpl st).2 = true) :
    iteration e opt smpl st =
      Step.stop ⟨[], [], pass_calls e smpl st, (drawn e smpl st).1, Stop.eog, 1⟩ := by
  simp only [passes, check_sum] at hp
  have hgt : ¬ (add32 (add32 (e.llama_memory_seq_pos_max st.ctx 0) 1) st.batch.n_tokens >
      toInt32 (e.llama_n_ctx st.ctx)) := by omega
  simp only [decoded, drawn] at hd ht
  simp only [iteration, hgt, if_false, hd, ne_eq, not_true_eq_false, ht, if_true, decoded,
    drawn, pass_calls]

/-- The pass in which the detokenizer reports a negative length. -/
theorem iteration_piece_negative {σ F : Type} {e : Engine σ F} (opt : Options F)
    (smpl : List (llama_sampler F)) {st : LoopState σ} (hp : passes e st)
    (hd : (decoded e st).2 = 0) (ht : e.llama_vocab_is_eog (drawn e smpl st).2 = false)
    (hn : (e.llama_token_to_piece (drawn e smpl st).2 256 0 true).1 < 0) :
    iteration e opt smpl st =
      Step.stop ⟨[], [], pass_calls e smpl st, (drawn e smpl st).1, Stop.piece_negative, 1⟩ := by
  simp only [passes, check_sum] at hp
  have hgt : ¬ (add32 (add32 (e.llama_memory_seq_pos_max st.ctx 0) 1) st.batch.n_tokens >
      toInt32 (e.llama_n_ctx st.ctx)) := by omega
  simp only [decoded, drawn] at hd ht hn
  simp only [iteration, hgt, if_false, hd, ne_eq, not_true_eq_false, ht, hn, if_true, decoded,
    drawn, pass_calls, Bool.false_eq_true]

/-- The pass that writes a fragment and reaches the budget. -/
theorem iteration_budget {σ F : Type} {e : Engine σ F} (opt : Options F)
    (smpl : List (llama_sampler F)) {st : LoopState σ} (hp : passes e st)
    (hd : (decoded e st).2 = 0) (ht : terminal e (drawn e smpl st).2 = false)
    (hb : opt.n_predict ≤ st.generated + 1) :
    iteration e opt smpl st =
      Step.stop ⟨stream_piece opt.color (piece_of e (drawn e smpl st).2), [],
        pass_calls e smpl st, (drawn e smpl st).1, Stop.budget, 1⟩ := by
  simp only [passes, check_sum] at hp
  have hgt : ¬ (add32 (add32 (e.llama_memory_seq_pos_max st.ctx 0) 1) st.batch.n_tokens >
      toInt32 (e.llama_n_ctx st.ctx)) := by omega
  simp only [terminal, Bool.or_eq_false_iff, decide_eq_false_iff_not] at ht
  obtain ⟨ht1, ht2⟩ := ht
  have hge : st.generated + 1 ≥ opt.n_predict := hb
  simp only [decoded, drawn] at hd ht1 ht2
  simp only [iteration, hgt, if_false, hd, ne_eq, not_true_eq_false, ht1, ht2, hge, if_true,
    decoded, drawn, pass_calls, piece_of, Bool.false_eq_true]

/-- The pass that writes a fragment and goes back to the top of the loop. -/
theorem iteration_continue {σ F : Type} {e : Engine σ F} (opt : Options F)
    (smpl : List (llama_sampler F)) {st : LoopState σ} (hp : passes e st)
    (hd : (decoded e st).2 = 0) (ht : terminal e (drawn e smpl st).2 = false)
    (hb : st.generated + 1 < opt.n_predict) :
    iteration e opt smpl st =
      Step.next (stream_piece opt.color (piece_of e (drawn e smpl st).2))
        (pass_calls e smpl st)
        ⟨(drawn e smpl st).1, llama_batch_get_one [(drawn e smpl st).2] 1,
          st.generated + 1⟩ := by
  simp only [passes, check_sum] at hp
  have hgt : ¬ (add32 (add32 (e.llama_memory_seq_pos_max st.ctx 0) 1) st.batch.n_tokens >
      toInt32 (e.llama_n_ctx st.ctx)) := by omega
  simp only [terminal, Bool.or_eq_false_iff, decide_eq_false_iff_not] at ht
  obtain ⟨ht1, ht2⟩ := ht
  have hge : ¬ (st.generated + 1 ≥ opt.n_predict) := by omega
  simp only [decoded, drawn] at hd ht1 ht2
  simp only [iteration, hgt, if_false, hd, ne_eq, not_true_eq_false, ht1, ht2, hge, if_true,
    decoded, drawn, pass_calls, piece_of, Bool.false_eq_true]

/-- A run of the loop whose first pass ends in a `break` is that pass. -/
theorem loop_stop {σ F : Type} {e : Engine σ F} {opt : Options F}
    {smpl : List (llama_sampler F)} {st : LoopState σ} {r : Run σ F}
    (h : iteration e opt smpl st = Step.stop r) : loop e opt smpl st = r := by
  rw [loop_eq, h]

/-- A run of the loop whose first pass goes back to the top is that pass followed by the run
from the new loop state. -/
theorem loop_next {σ F : Type} {e : Engine σ F} {opt : Options F}
    {smpl : List (llama_sampler F)} {st st1 : LoopState σ} {out : List Out}
    {calls : List (Call σ F)} (h : iteration e opt smpl st = Step.next out calls st1) :
    loop e opt smpl st =
      ⟨out ++ (loop e opt smpl st1).out, (loop e opt smpl st1).err,
        calls ++ (loop e opt smpl st1).calls, (loop e opt smpl st1).ctx,
        (loop e opt smpl st1).stop, (loop e opt smpl st1).iterations + 1⟩ := by
  rw [loop_eq, h]

/-! ## Induction over the passes of the loop -/

/-- A property of (loop state, run) pairs holds of every run of the loop when it holds of the
runs of one pass and is carried from the rest of a run to the run with one more pass in
front. -/
theorem loop_induction {σ F : Type} (e : Engine σ F) (opt : Options F)
    (smpl : List (llama_sampler F)) (P : LoopState σ → Run σ F → Prop)
    (hstop : ∀ st r, iteration e opt smpl st = Step.stop r → P st r)
    (hnext : ∀ st out calls st1 r, iteration e opt smpl st = Step.next out calls st1 →
      P st1 r → P st ⟨out ++ r.out, r.err, calls ++ r.calls, r.ctx, r.stop, r.iterations + 1⟩)
    (st : LoopState σ) : P st (loop e opt smpl st) := by
  induction st using loop.induct e opt smpl with
  | case1 x r h =>
    rw [loop_eq, h]
    exact hstop x r h
  | case2 x out calls st1 h ih =>
    rw [loop_eq, h]
    exact hnext x out calls st1 _ h ih

@[simp] theorem fragments_nil : fragments [] = [] := rfl

@[simp] theorem sampled_nil {σ F : Type} : sampled ([] : List (Call σ F)) = [] := rfl

@[simp] theorem submitted_nil {σ F : Type} : submitted ([] : List (Call σ F)) = [] := rfl

@[simp] theorem statuses_nil {σ F : Type} : statuses ([] : List (Call σ F)) = [] := rfl

@[simp] theorem sampled_decode {σ F : Type} (s : σ) (b : llama_batch) (ret : Int) :
    sampled [(Call.decode s b ret : Call σ F)] = [] := rfl

@[simp] theorem submitted_decode {σ F : Type} (s : σ) (b : llama_batch) (ret : Int) :
    submitted [(Call.decode s b ret : Call σ F)] = [b] := rfl

@[simp] theorem statuses_decode {σ F : Type} (s : σ) (b : llama_batch) (ret : Int) :
    statuses [(Call.decode s b ret : Call σ F)] = [ret] := rfl

@[simp] theorem fragments_append (a b : List Out) : fragments (a ++ b) = fragments a ++ fragments b := by
  simp [fragments, List.filterMap_append]

@[simp] theorem sampled_append {σ F : Type} (a b : List (Call σ F)) :
    sampled (a ++ b) = sampled a ++ sampled b := by
  simp [sampled, List.filterMap_append]

@[simp] theorem submitted_append {σ F : Type} (a b : List (Call σ F)) :
    submitted (a ++ b) = submitted a ++ submitted b := by
  simp [submitted, List.filterMap_append]

@[simp] theorem statuses_append {σ F : Type} (a b : List (Call σ F)) :
    statuses (a ++ b) = statuses a ++ statuses b := by
  simp [statuses, List.filterMap_append]

@[simp] theorem fragments_stream_piece (color : Bool) (p : List Char) :
    fragments (stream_piece color p) = [p] := by
  cases color <;> simp [fragments, stream_piece]

@[simp] theorem sampled_pass_calls {σ F : Type} (e : Engine σ F) (smpl : List (llama_sampler F))
    (st : LoopState σ) : sampled (pass_calls e smpl st) = [(drawn e smpl st).2] := by
  simp [sampled, pass_calls]

@[simp] theorem submitted_pass_calls {σ F : Type} (e : Engine σ F) (smpl : List (llama_sampler F))
    (st : LoopState σ) : submitted (pass_calls e smpl st) = [st.batch] := by
  simp [submitted, pass_calls]

@[simp] theorem statuses_pass_calls {σ F : Type} (e : Engine σ F) (smpl : List (llama_sampler F))
    (st : LoopState σ) : statuses (pass_calls e smpl st) = [0] := by
  simp [statuses, pass_calls]

/-- The number of passes of the loop is at most the budget that is left, and at least one
pass is made whatever the budget. -/
theorem loop_iterations_le {σ F : Type} (e : Engine σ F) (opt : Options F)
    (smpl : List (llama_sampler F)) (st : LoopState σ) :
    ((loop e opt smpl st).iterations : Int) ≤ max 1 (opt.n_predict - st.generated) := by
  refine loop_induction e opt smpl
    (fun st r => (r.iterations : Int) ≤ max 1 (opt.n_predict - st.generated)) ?_ ?_ st
  · intro st r h
    have h1 := (iteration_stop h).1
    simp only [h1]
    omega
  · intro st out calls st1 r h ih
    obtain ⟨-, -, -, -, -, hst1, hlt⟩ := iteration_next h
    subst hst1
    simp only at ih ⊢
    push_cast
    omega

/-- Each pass makes at most one decode call, at most one sample call and writes at most one
fragment. -/
theorem loop_counts_le {σ F : Type} (e : Engine σ F) (opt : Options F)
    (smpl : List (llama_sampler F)) (st : LoopState σ) :
    (submitted (loop e opt smpl st).calls).length ≤ (loop e opt smpl st).iterations ∧
    (sampled (loop e opt smpl st).calls).length ≤ (loop e opt smpl st).iterations ∧
    (fragments (loop e opt smpl st).out).length ≤ (loop e opt smpl st).iterations := by
  refine loop_induction e opt smpl
    (fun _ r => (submitted r.calls).length ≤ r.iterations ∧
      (sampled r.calls).length ≤ r.iterations ∧ (fragments r.out).length ≤ r.iterations) ?_ ?_ st
  · intro st r h
    obtain ⟨h1, h2⟩ := iteration_stop h
    rcases h2 with ⟨hc, ho, -⟩ | ⟨-, -, hc, ho, -⟩ | ⟨-, -, hc, -, ho, -⟩ |
      ⟨-, -, hc, -, ho, -⟩ <;>
    simp [h1, hc, ho]
  · intro st out calls st1 r h ih
    obtain ⟨-, -, -, hout, hcalls, -, -⟩ := iteration_next h
    subst hout hcalls
    simp only [submitted_append, sampled_append, fragments_append, fragments_stream_piece,
      sampled_pass_calls, submitted_pass_calls, List.length_append, List.length_singleton]
    omega

/-! ## The scripted engine, first pass -/

/-- On a fresh scripted engine of capacity 8 the additions of the context check on a
two-token prompt do not overflow. -/
theorem sim_in_range (F : Type) (rets : Nat → Int) (toks : Nat → llama_token)
    (eog : llama_token) (g : Int) :
    in_range (simEngine F 8 rets toks eog)
      ⟨simFresh, llama_batch_get_one [5, 6] (toInt32 ([5, 6] : List llama_token).length), g⟩ := by
  simp only [in_range, simEngine, simFresh, llama_batch_get_one, toInt32, INT32_MIN, INT32_MAX]
  norm_num

/-- On a fresh scripted engine of capacity 8 a two-token prompt passes the context check. -/
theorem sim_fits (F : Type) (rets : Nat → Int) (toks : Nat → llama_token)
    (eog : llama_token) (g : Int) :
    fits (simEngine F 8 rets toks eog)
      ⟨simFresh, llama_batch_get_one [5, 6] (toInt32 ([5, 6] : List llama_token).length), g⟩ := by
  simp only [fits, simEngine, simFresh, llama_batch_get_one, toInt32]
  norm_num

/-- The overflow check of the first pass on the always-succeeding scripted engine. -/
theorem echo_in_range (F : Type) :
    in_range (echoEngine F 8)
      ⟨simFresh, llama_batch_get_one [5, 6] (toInt32 ([5, 6] : List llama_token).length), 0⟩ :=
  sim_in_range F _ _ _ 0

/-- The context check of the first pass on the always-succeeding scripted engine. -/
theorem echo_fits (F : Type) :
    fits (echoEngine F 8)
      ⟨simFresh, llama_batch_get_one [5, 6] (toInt32 ([5, 6] : List llama_token).length), 0⟩ :=
  sim_fits F _ _ _ 0

/-- The conversion of the length of a two-token prompt to `int`. -/
theorem toInt32_two : toInt32 (([5, 6] : List llama_token).length : Int) = 2 := by
  simp only [toInt32, List.length_cons, List.length_nil]
  norm_num

/-- The first pass of the scripted engine on a two-token prompt when the budget is at most
one: token 7 is sampled and written, and the budget `break` is taken. -/
theorem echo_first_pass {F : Type} (opt : Options F) (hb : opt.n_predict ≤ 1) :
    loop (echoEngine F 8) opt (sampler_chain opt)
      ⟨simFresh, llama_batch_get_one [5, 6] (toInt32 ([5, 6] : List llama_token).length), 0⟩ =
    ⟨stream_piece opt.color (piece_of (echoEngine F 8) 7), [],
      [Call.decode simFresh (llama_batch_get_one [5, 6]
          (toInt32 ([5, 6] : List llama_token).length)) 0,
        Call.sample (sampler_chain opt) ⟨toInt32 ([5, 6] : List llama_token).length, 1, 0⟩
          (-1) 7],
      ⟨toInt32 ([5, 6] : List llama_token).length, 1, 1⟩, Stop.budget, 1⟩ := by
  rw [loop_stop (iteration_budget opt (sampler_chain opt)
    (passes_of_fits (echo_in_range F) (echo_fits F))
    rfl rfl (by simpa using hb))]
  simp [pass_calls, decoded, drawn, echoEngine, simEngine, simFresh, llama_batch_get_one]

/-! ## Budget and termination -/

/-- C1 (counterexample): with `n_predict = 0`, and with `n_predict = -1`, one run on the
scripted engine samples one token that is not an end-of-generation token, which is more than
`n_predict`. -/
theorem budget_law_fails_at_zero :
    counted (echoEngine Unit 8) (generate_stream (echoEngine Unit 8) simFresh [5, 6]
      (simOptions 0)).calls = 1 ∧
    ¬ ((counted (echoEngine Unit 8) (generate_stream (echoEngine Unit 8) simFresh [5, 6]
      (simOptions 0)).calls : Int) ≤ (simOptions 0).n_predict) ∧
    ¬ ((counted (echoEngine Unit 8) (generate_stream (echoEngine Unit 8) simFresh [5, 6]
      (simOptions (-1))).calls : Int) ≤ (simOptions (-1)).n_predict) := by
  have h0 : counted (echoEngine Unit 8) (generate_stream (echoEngine Unit 8) simFresh [5, 6]
      (simOptions 0)).calls = 1 := by
    simp only [generate_stream]
    rw [echo_first_pass (simOptions 0) (by decide)]
    rfl
  have h1 : counted (echoEngine Unit 8) (generate_stream (echoEngine Unit 8) simFresh [5, 6]
      (simOptions (-1))).calls = 1 := by
    simp only [generate_stream]
    rw [echo_first_pass (simOptions (-1)) (by decide)]
    rfl
  refine ⟨h0, ?_, ?_⟩
  · rw [h0]; decide
  · rw [h1]; decide

/-- C1 (amended): for every `n_predict ≥ 1`, every prompt and every engine, the number of
tokens sampled by `generate_stream`, not counting an end-of-generation token, is at most
`n_predict`. -/
theorem budget_law_positive {σ F : Type} (e : Engine σ F) (ctx : σ) (input : List llama_token)
    (opt : Options F) (h : 1 ≤ opt.n_predict) :
    (counted e (generate_stream e ctx input opt).calls : Int) ≤ opt.n_predict := by
  have h1 := loop_iterations_le e opt (sampler_chain opt)
    ⟨ctx, llama_batch_get_one input (toInt32 input.length), 0⟩
  have h2 := (loop_counts_le e opt (sampler_chain opt)
    ⟨ctx, llama_batch_get_one input (toInt32 input.length), 0⟩).2.1
  have h3 : counted e (generate_stream e ctx input opt).calls ≤
      (sampled (generate_stream e ctx input opt).calls).length := by
    unfold counted
    exact List.length_filter_le _ _
  simp only [generate_stream] at h3 ⊢
  simp only at h1
  omega

/-- C1 (witness): the amended budget law at `n_predict = 1` on the scripted engine. -/
theorem budget_law_positive_witness :
    (1 : Int) ≤ (simOptions 1).n_predict ∧
    (counted (echoEngine Unit 8) (generate_stream (echoEngine Unit 8) simFresh [5, 6]
      (simOptions 1)).calls : Int) ≤ (simOptions 1).n_predict :=
  ⟨by decide, budget_law_positive (echoEngine Unit 8) simFresh [5, 6] (simOptions 1) (by decide)⟩

/-- C10: for every `n_predict`, prompt and engine, `generate_stream` is a total function whose
loop makes at most `max 1 n_predict` passes, issues at most that many decode calls and writes
at most that many fragments; and for `n_predict ≤ 0` there is an engine and a prompt on which
it writes one fragment. -/
theorem termination_bound {σ F : Type} (e : Engine σ F) (ctx : σ) (input : List llama_token)
    (opt : Options F) :
    ((generate_stream e ctx input opt).iterations : Int) ≤ max 1 opt.n_predict ∧
    ((submitted (generate_stream e ctx input opt).calls).length : Int) ≤ max 1 opt.n_predict ∧
    ((fragments (generate_stream e ctx input opt).out).length : Int) ≤ max 1 opt.n_predict ∧
    (opt.n_predict ≤ 0 → ∃ (e1 : Engine Sim F) (c1 : Sim) (prompt : List llama_token),
      (fragments (generate_stream e1 c1 prompt opt).out).length = 1) := by
  have h1 := loop_iterations_le e opt (sampler_chain opt)
    ⟨ctx, llama_batch_get_one input (toInt32 input.length), 0⟩
  obtain ⟨h2, -, h4⟩ := loop_counts_le e opt (sampler_chain opt)
    ⟨ctx, llama_batch_get_one input (toInt32 input.length), 0⟩
  simp only [generate_stream]
  simp only at h1
  refine ⟨by omega, by omega, by omega, ?_⟩
  intro hn
  refine ⟨echoEngine F 8, simFresh, [5, 6], ?_⟩
  rw [echo_first_pass opt (by omega)]
  simp

/-- C10 (witness): at `n_predict = 0` the bound is one pass, and one fragment is written on
some engine. -/
theorem termination_bound_witness :
    (simOptions 0).n_predict ≤ 0 ∧
    ∃ (e1 : Engine Sim Unit) (c1 : Sim) (prompt : List llama_token),
      (fragments (generate_stream e1 c1 prompt (simOptions 0)).out).length = 1 :=
  ⟨by decide,
    (termination_bound (echoEngine Unit 8) simFresh [5, 6] (simOptions 0)).2.2.2 (by decide)⟩

/-! ## The context check -/

/-- The capacity read as an `int` is never above the capacity the engine reports. -/
theorem toInt32_le_self (n : Nat) : toInt32 n ≤ n := by
  unfold toInt32
  omega

/-- The first pass on a context that is empty: the additions of the context check do not
overflow when the prompt length fits an `int`. -/
theorem fresh_in_range {σ F : Type} (e : Engine σ F) (ctx : σ) (input : List llama_token)
    (g : Int) (hfresh : e.llama_memory_seq_pos_max ctx 0 = -1)
    (hlen : (input.length : Int) ≤ INT32_MAX) :
    in_range e ⟨ctx, llama_batch_get_one input (toInt32 input.length), g⟩ := by
  have hn := toInt32_of_range input.length (by unfold INT32_MIN; omega) hlen
  simp only [in_range, llama_batch_get_one, hfresh, hn]
  unfold INT32_MIN INT32_MAX at *
  omega

/-- C3: for every engine, every options value and every prompt whose length `L` fits an `int`
(the only lengths `main` can pass), submitted to a context whose `llama_memory_seq_pos_max`
is -1 and whose capacity is below `L`, `generate_stream` takes the context-overflow `break` in
its first pass: it issues no decode call, samples no token and writes nothing to the
output. -/
theorem overflow_law {σ F : Type} (e : Engine σ F) (ctx : σ) (input : List llama_token)
    (opt : Options F) (hfresh : e.llama_memory_seq_pos_max ctx 0 = -1)
    (hlen : (input.length : Int) ≤ INT32_MAX) (hover : e.llama_n_ctx ctx < input.length) :
    (generate_stream e ctx input opt).calls = [] ∧
    (generate_stream e ctx input opt).out = [] ∧
    (generate_stream e ctx input opt).err = [Diag.context_exceeded] ∧
    (generate_stream e ctx input opt).stop = Stop.context_exceeded ∧
    (generate_stream e ctx input opt).iterations = 1 := by
  have hr := fresh_in_range e ctx input 0 hfresh hlen
  have hn := toInt32_of_range input.length (by unfold INT32_MIN; omega) hlen
  have hf : ¬ fits e ⟨ctx, llama_batch_get_one input (toInt32 input.length), 0⟩ := by
    have hc := toInt32_le_self (e.llama_n_ctx ctx)
    simp only [fits, llama_batch_get_one, hfresh, hn]
    omega
  simp only [generate_stream]
  rw [loop_stop (iteration_overflow opt (sampler_chain opt)
    (not_passes_of_not_fits hr hf))]
  exact ⟨rfl, rfl, rfl, rfl, rfl⟩

/-- C3 (witness): a two-token prompt on a fresh scripted engine of capacity 1. -/
theorem overflow_law_witness :
    ((echoEngine Unit 1).llama_memory_seq_pos_max simFresh 0 = -1 ∧
      (([5, 6] : List llama_token).length : Int) ≤ INT32_MAX ∧
      (echoEngine Unit 1).llama_n_ctx simFresh < ([5, 6] : List llama_token).length) ∧
    (generate_stream (echoEngine Unit 1) simFresh [5, 6] (simOptions 512)).calls = [] ∧
    (generate_stream (echoEngine Unit 1) simFresh [5, 6] (simOptions 512)).out = [] ∧
    (generate_stream (echoEngine Unit 1) simFresh [5, 6] (simOptions 512)).err =
      [Diag.context_exceeded] ∧
    (generate_stream (echoEngine Unit 1) simFresh [5, 6] (simOptions 512)).stop =
      Stop.context_exceeded ∧
    (generate_stream (echoEngine Unit 1) simFresh [5, 6] (simOptions 512)).iterations = 1 :=
  ⟨⟨by decide, by decide, by decide⟩,
    overflow_law (echoEngine Unit 1) simFresh [5, 6] (simOptions 512) (by decide) (by decide)
      (by decide)⟩

/-- Every run of the loop makes at least one pass. -/
theorem loop_iterations_pos {σ F : Type} (e : Engine σ F) (opt : Options F)
    (smpl : List (llama_sampler F)) (st : LoopState σ) :
    1 ≤ (loop e opt smpl st).iterations := by
  refine loop_induction e opt smpl (fun _ r => 1 ≤ r.iterations) ?_ ?_ st
  · intro st r h
    rw [(iteration_stop h).1]
  · intro st out calls st1 r _ _
    simp

/-- A run of the loop from a state that the context check lets through starts with the decode of the
batch of that state, and if it ends in the context-overflow `break` it made a second pass. -/
theorem loop_first_decode {σ F : Type} (e : Engine σ F) (opt : Options F)
    (smpl : List (llama_sampler F)) (st : LoopState σ) (hp : passes e st) :
    (loop e opt smpl st).calls.head? =
      some (Call.decode st.ctx st.batch (e.llama_decode st.ctx st.batch).2) ∧
    ((loop e opt smpl st).stop = Stop.context_exceeded → 2 ≤ (loop e opt smpl st).iterations) := by
  by_cases hd : (decoded e st).2 = 0
  · have hd0 : (e.llama_decode st.ctx st.batch).2 = 0 := hd
    by_cases ht : terminal e (drawn e smpl st).2 = false
    · by_cases hb : opt.n_predict ≤ st.generated + 1
      · rw [loop_stop (iteration_budget opt smpl hp hd ht hb)]
        simp [pass_calls, hd0]
      · rw [loop_next (iteration_continue opt smpl hp hd ht (by omega))]
        have := loop_iterations_pos e opt smpl ⟨(drawn e smpl st).1,
          llama_batch_get_one [(drawn e smpl st).2] 1, st.generated + 1⟩
        simp [pass_calls, hd0, this]
    · simp only [Bool.not_eq_false] at ht
      by_cases hg : e.llama_vocab_is_eog (drawn e smpl st).2 = true
      · rw [loop_stop (iteration_eog opt smpl hp hd hg)]
        simp [pass_calls, hd0]
      · simp only [Bool.not_eq_true] at hg
        have hn : (e.llama_token_to_piece (drawn e smpl st).2 256 0 true).1 < 0 := by
          simpa [terminal, hg] using ht
        rw [loop_stop (iteration_piece_negative opt smpl hp hd hg hn)]
        simp [pass_calls, hd0]
  · rw [loop_stop (iteration_decode_failed opt smpl hp hd)]
    simp

/-- C2 (counterexample): a two-token prompt on a fresh scripted engine of capacity exactly 2
is decoded, one token is sampled and written, and only the second pass takes the
context-overflow `break`: the run has a decode call and a fragment. -/
theorem exact_fit_is_decoded :
    ((echoEngine Unit 2).llama_memory_seq_pos_max simFresh 0 = -1 ∧
      (echoEngine Unit 2).llama_n_ctx simFresh = ([5, 6] : List llama_token).length) ∧
    submitted (generate_stream (echoEngine Unit 2) simFresh [5, 6] (simOptions 512)).calls =
      [llama_batch_get_one [5, 6] 2] ∧
    fragments (generate_stream (echoEngine Unit 2) simFresh [5, 6] (simOptions 512)).out =
      [['h']] ∧
    (generate_stream (echoEngine Unit 2) simFresh [5, 6] (simOptions 512)).stop =
      Stop.context_exceeded ∧
    (generate_stream (echoEngine Unit 2) simFresh [5, 6] (simOptions 512)).iterations = 2 ∧
    ¬ ((generate_stream (echoEngine Unit 2) simFresh [5, 6] (simOptions 512)).calls = [] ∧
      fragments (generate_stream (echoEngine Unit 2) simFresh [5, 6] (simOptions 512)).out =
        []) := by
  have hr0 : in_range (echoEngine Unit 2)
      ⟨simFresh, llama_batch_get_one [5, 6] (toInt32 ([5, 6] : List llama_token).length), 0⟩ :=
    fresh_in_range _ _ _ _ (by decide) (by decide)
  have hf0 : fits (echoEngine Unit 2)
      ⟨simFresh, llama_batch_get_one [5, 6] (toInt32 ([5, 6] : List llama_token).length), 0⟩ := by
    simp only [fits, echoEngine, simEngine, simFresh, llama_batch_get_one, toInt32]
    norm_num
  have h1 := iteration_continue (simOptions 512) (sampler_chain (simOptions 512)) 
    (passes_of_fits hr0 hf0) rfl rfl
    (by decide)
  have hr1 : in_range (echoEngine Unit 2)
      ⟨(drawn (echoEngine Unit 2) (sampler_chain (simOptions 512))
          ⟨simFresh, llama_batch_get_one [5, 6] (toInt32 ([5, 6] : List llama_token).length),
            0⟩).1,
        llama_batch_get_one [(drawn (echoEngine Unit 2) (sampler_chain (simOptions 512))
          ⟨simFresh, llama_batch_get_one [5, 6] (toInt32 ([5, 6] : List llama_token).length),
            0⟩).2] 1, 0 + 1⟩ := by
    simp only [in_range, drawn, decoded, echoEngine, simEngine, simFresh, llama_batch_get_one,
      toInt32, INT32_MIN, INT32_MAX]
    norm_num
  have hf1 : ¬ fits (echoEngine Unit 2)
      ⟨(drawn (echoEngine Unit 2) (sampler_chain (simOptions 512))
          ⟨simFresh, llama_batch_get_one [5, 6] (toInt32 ([5, 6] : List llama_token).length),
            0⟩).1,
        llama_batch_get_one [(drawn (echoEngine Unit 2) (sampler_chain (simOptions 512))
          ⟨simFresh, llama_batch_get_one [5, 6] (toInt32 ([5, 6] : List llama_token).length),
            0⟩).2] 1, 0 + 1⟩ := by
    simp only [fits, drawn, decoded, echoEngine, simEngine, simFresh, llama_batch_get_one,
      toInt32]
    norm_num
  have h2 := iteration_overflow (simOptions 512) (sampler_chain (simOptions 512))
    (not_passes_of_not_fits hr1 hf1)
  simp only [generate_stream]
  rw [loop_next h1, loop_stop h2]
  refine ⟨⟨by decide, by decide⟩, ?_, ?_, rfl, rfl, ?_⟩
  · simp [llama_batch_get_one, toInt32]
  · simp [piece_of, drawn, decoded, echoEngine, simEngine]
  · simp [pass_calls]

/-- C2 (amended): for every engine, options value and prompt whose length `L` fits an `int`,
submitted to a context whose `llama_memory_seq_pos_max` is -1 and whose capacity is exactly
`L`, the first pass of `generate_stream` does not take the context-overflow `break`: the first
engine call of the run is the decode of the whole prompt, and a run that ends in the
context-overflow `break` does so in its second pass or later. -/
theorem exact_fit_first_decode {σ F : Type} (e : Engine σ F) (ctx : σ)
    (input : List llama_token) (opt : Options F)
    (hfresh : e.llama_memory_seq_pos_max ctx 0 = -1)
    (hlen : (input.length : Int) ≤ INT32_MAX) (hfit : e.llama_n_ctx ctx = input.length) :
    (generate_stream e ctx input opt).calls.head? =
      some (Call.decode ctx (llama_batch_get_one input input.length)
        (e.llama_decode ctx (llama_batch_get_one input input.length)).2) ∧
    ((generate_stream e ctx input opt).stop = Stop.context_exceeded →
      2 ≤ (generate_stream e ctx input opt).iterations) := by
  have hr := fresh_in_range e ctx input 0 hfresh hlen
  have hn := toInt32_of_range input.length (by unfold INT32_MIN; omega) hlen
  have hf : fits e ⟨ctx, llama_batch_get_one input (toInt32 input.length), 0⟩ := by
    simp only [fits, llama_batch_get_one, hfresh, hn, hfit]
    omega
  have h := loop_first_decode e opt (sampler_chain opt) _ (passes_of_fits hr hf)
  simp only [generate_stream]
  simp only [hn] at h ⊢
  exact h

/-- C2 (witness): the amended statement on the scripted engine of capacity 2. -/
theorem exact_fit_first_decode_witness :
    ((echoEngine Unit 2).llama_memory_seq_pos_max simFresh 0 = -1 ∧
      (([5, 6] : List llama_token).length : Int) ≤ INT32_MAX ∧
      (echoEngine Unit 2).llama_n_ctx simFresh = ([5, 6] : List llama_token).length) ∧
    (generate_stream (echoEngine Unit 2) simFresh [5, 6] (simOptions 512)).calls.head? =
      some (Call.decode simFresh
        (llama_batch_get_one [5, 6] (([5, 6] : List llama_token).length : Int))
        ((echoEngine Unit 2).llama_decode simFresh
          (llama_batch_get_one [5, 6] (([5, 6] : List llama_token).length : Int))).2) ∧
    ((generate_stream (echoEngine Unit 2) simFresh [5, 6] (simOptions 512)).stop =
        Stop.context_exceeded →
      2 ≤ (generate_stream (echoEngine Unit 2) simFresh [5, 6] (simOptions 512)).iterations) :=
  ⟨⟨by decide, by decide, by decide⟩,
    exact_fit_first_decode (echoEngine Unit 2) simFresh [5, 6] (simOptions 512) (by decide)
      (by decide) (by decide)⟩

/-! ## The context-window invariant -/

/-- The conversion to `int` never gives a value above `INT32_MAX`. -/
theorem toInt32_le_max (x : Int) : toInt32 x ≤ 2147483647 := by
  unfold toInt32
  omega

/-- Every decode call of a run of the loop is issued in a state that the context check let
through: the sum the check computes for it is at most the capacity read as an `int`. -/
theorem loop_decode_passes {σ F : Type} (e : Engine σ F) (opt : Options F)
    (smpl : List (llama_sampler F)) (st : LoopState σ) :
    ∀ s b ret, Call.decode s b ret ∈ (loop e opt smpl st).calls →
      check_sum e s b ≤ toInt32 (e.llama_n_ctx s) ∧ ret = (e.llama_decode s b).2 := by
  refine loop_induction e opt smpl
    (fun _ r => ∀ s b ret, Call.decode s b ret ∈ r.calls →
      check_sum e s b ≤ toInt32 (e.llama_n_ctx s) ∧ ret = (e.llama_decode s b).2) ?_ ?_ st
  · intro st r h s b ret hm
    obtain ⟨-, h2⟩ := iteration_stop h
    rcases h2 with ⟨hc, -⟩ | ⟨hf, -, hc, -⟩ | ⟨hf, hd, hc, -⟩ | ⟨hf, hd, hc, -⟩ <;>
      rw [hc] at hm
    · simp at hm
    · simp only [List.mem_singleton, Call.decode.injEq] at hm
      obtain ⟨rfl, rfl, rfl⟩ := hm
      exact ⟨hf, rfl⟩
    · simp only [pass_calls, List.mem_cons, Call.decode.injEq, List.mem_singleton,
        List.not_mem_nil, or_false, reduceCtorEq] at hm
      obtain ⟨rfl, rfl, rfl⟩ := hm
      exact ⟨hf, hd.symm⟩
    · simp only [pass_calls, List.mem_cons, Call.decode.injEq, List.mem_singleton,
        List.not_mem_nil, or_false, reduceCtorEq] at hm
      obtain ⟨rfl, rfl, rfl⟩ := hm
      exact ⟨hf, hd.symm⟩
  · intro st out calls st1 r h ih s b ret hm
    obtain ⟨hf, hd, -, -, hc, -, -⟩ := iteration_next h
    subst hc
    simp only [List.mem_append] at hm
    rcases hm with hm | hm
    · simp only [pass_calls, List.mem_cons, Call.decode.injEq, List.mem_singleton,
        List.not_mem_nil, or_false, reduceCtorEq] at hm
      obtain ⟨rfl, rfl, rfl⟩ := hm
      exact ⟨hf, hd.symm⟩
    · exact ih s b ret hm

/-- For an engine of fixed capacity `C`, with `C` read as an `int` different from `INT32_MAX`,
whose position counter grows by the batch size on a decode that returns 0 and is left alone by
every other call: if the loop starts with a counter that is at most the capacity read as an
`int`, or at most 0, and the check on its first batch does not overflow, then the counter is at most `C` in
every state in which a call is issued and in the state the loop ends in, and counter plus all
batch sizes submitted is at most `C`. -/
theorem loop_counter_bounded {σ F : Type} (e : Engine σ F) (opt : Options F)
    (smpl : List (llama_sampler F)) (C : Nat) (hcap : ∀ s, e.llama_n_ctx s = C)
    (hC : toInt32 C ≠ INT32_MAX)
    (hok : ∀ s b, (e.llama_decode s b).2 = 0 →
      e.llama_memory_seq_pos_max (e.llama_decode s b).1 0 =
        e.llama_memory_seq_pos_max s 0 + b.n_tokens)
    (hfail : ∀ s b, (e.llama_decode s b).2 ≠ 0 →
      e.llama_memory_seq_pos_max (e.llama_decode s b).1 0 = e.llama_memory_seq_pos_max s 0)
    (hsample : ∀ c s i, e.llama_memory_seq_pos_max (e.llama_sampler_sample c s i).1 0 =
      e.llama_memory_seq_pos_max s 0)
    (st : LoopState σ)
    (h0 : -2147483648 ≤ e.llama_memory_seq_pos_max st.ctx 0 + 1 ∧
      (e.llama_memory_seq_pos_max st.ctx 0 + 1 ≤ toInt32 C ∨
        e.llama_memory_seq_pos_max st.ctx 0 + 1 ≤ 0))
    (h1 : -2147483648 ≤ e.llama_memory_seq_pos_max st.ctx 0 + 1 + st.batch.n_tokens ∧
      e.llama_memory_seq_pos_max st.ctx 0 + 1 + st.batch.n_tokens ≤ 2147483647) :
    (∀ s b ret, Call.decode s b ret ∈ (loop e opt smpl st).calls →
      e.llama_memory_seq_pos_max s 0 + 1 ≤ C) ∧
    (∀ c s i t, Call.sample c s i t ∈ (loop e opt smpl st).calls →
      e.llama_memory_seq_pos_max s 0 + 1 ≤ C) ∧
    e.llama_memory_seq_pos_max (loop e opt smpl st).ctx 0 + 1 ≤ C ∧
    e.llama_memory_seq_pos_max st.ctx 0 + 1 +
      ((submitted (loop e opt smpl st).calls).map fun b => b.n_tokens).sum ≤ C := by
  have hle := toInt32_le_self C
  have hmax := toInt32_le_max C
  have hC1 : toInt32 C < 2147483647 := by
    unfold INT32_MAX at hC
    omega
  refine loop_induction e opt smpl
    (fun st r =>
      (-2147483648 ≤ e.llama_memory_seq_pos_max st.ctx 0 + 1 ∧
        (e.llama_memory_seq_pos_max st.ctx 0 + 1 ≤ toInt32 C ∨
          e.llama_memory_seq_pos_max st.ctx 0 + 1 ≤ 0)) →
      (-2147483648 ≤ e.llama_memory_seq_pos_max st.ctx 0 + 1 + st.batch.n_tokens ∧
        e.llama_memory_seq_pos_max st.ctx 0 + 1 + st.batch.n_tokens ≤ 2147483647) →
      (∀ s b ret, Call.decode s b ret ∈ r.calls → e.llama_memory_seq_pos_max s 0 + 1 ≤ C) ∧
      (∀ c s i t, Call.sample c s i t ∈ r.calls → e.llama_memory_seq_pos_max s 0 + 1 ≤ C) ∧
      e.llama_memory_seq_pos_max r.ctx 0 + 1 ≤ C ∧
      e.llama_memory_seq_pos_max st.ctx 0 + 1 +
        ((submitted r.calls).map fun b => b.n_tokens).sum ≤ C) ?_ ?_ st h0 h1
  · intro st r h h0 h1
    have hr : in_range e st := by
      simp only [in_range, INT32_MIN, INT32_MAX]
      omega
    have hpos : e.llama_memory_seq_pos_max st.ctx 0 + 1 ≤ C := by omega
    obtain ⟨-, h2⟩ := iteration_stop h
    rcases h2 with ⟨hc, -, -, hx, -⟩ | ⟨hf, hd, hc, -, -, hx, -⟩ |
      ⟨hf, hd, hc, -, -, -, hx, -⟩ | ⟨hf, hd, hc, -, -, -, hx, -⟩
    · simp [hc, hx, hpos]
    · have h3 := hfail st.ctx st.batch hd
      simp only [passes, check_sum_in_range hr, hcap] at hf
      simp only [hc, hx, decoded, h3, List.mem_singleton, Call.decode.injEq, reduceCtorEq,
        submitted_decode, List.map_cons, List.map_nil, List.sum_cons, List.sum_nil]
      refine ⟨?_, ?_, hpos, by omega⟩
      · rintro s b ret ⟨rfl, -, -⟩
        exact hpos
      · intro c s i t hm
        exact absurd hm (by simp)
    · have h3 := hok st.ctx st.batch hd
      have h4 := hsample smpl (decoded e st).1 (-1)
      simp only [passes, check_sum_in_range hr, hcap] at hf
      simp only [decoded] at h4
      simp only [hc, hx, submitted_pass_calls]
      simp only [drawn, decoded, pass_calls, List.mem_cons, Call.decode.injEq,
        Call.sample.injEq, List.mem_singleton, List.not_mem_nil, or_false, false_or,
        reduceCtorEq, List.map_cons, List.map_nil, List.sum_cons,
        List.sum_nil, h4, h3]
      refine ⟨?_, ?_, by omega, by omega⟩
      · rintro s b ret ⟨rfl, -, -⟩
        exact hpos
      · rintro c s i t ⟨-, rfl, -, -⟩
        rw [h3]
        omega
    · have h3 := hok st.ctx st.batch hd
      have h4 := hsample smpl (decoded e st).1 (-1)
      simp only [passes, check_sum_in_range hr, hcap] at hf
      simp only [decoded] at h4
      simp only [hc, hx, submitted_pass_calls]
      simp only [drawn, decoded, pass_calls, List.mem_cons, Call.decode.injEq,
        Call.sample.injEq, List.mem_singleton, List.not_mem_nil, or_false, false_or,
        reduceCtorEq, List.map_cons, List.map_nil, List.sum_cons,
        List.sum_nil, h4, h3]
      refine ⟨?_, ?_, by omega, by omega⟩
      · rintro s b ret ⟨rfl, -, -⟩
        exact hpos
      · rintro c s i t ⟨-, rfl, -, -⟩
        rw [h3]
        omega
  · intro st out calls st1 r h ih h0 h1
    have hr : in_range e st := by
      simp only [in_range, INT32_MIN, INT32_MAX]
      omega
    have hpos : e.llama_memory_seq_pos_max st.ctx 0 + 1 ≤ C := by omega
    obtain ⟨hf, hd, -, -, hc, hst1, -⟩ := iteration_next h
    have h3 := hok st.ctx st.batch hd
    have h4 := hsample smpl (decoded e st).1 (-1)
    simp only [passes, check_sum_in_range hr, hcap] at hf
    simp only [decoded] at h4
    subst hc hst1
    simp only [drawn, decoded, h4, h3, llama_batch_get_one] at ih
    obtain ⟨i1, i2, i3, i4⟩ := ih (by omega) (by omega)
    simp only [submitted_append, submitted_pass_calls]
    simp only [pass_calls, drawn, decoded, List.mem_append, List.mem_cons, Call.decode.injEq,
      Call.sample.injEq, List.mem_singleton, List.not_mem_nil, or_false, false_or,
      reduceCtorEq, List.map_append, List.sum_append, List.map_cons,
      List.map_nil, List.sum_cons, List.sum_nil]
    refine ⟨?_, ?_, i3, ?_⟩
    · rintro s b ret (⟨rfl, -, -⟩ | hm)
      · exact hpos
      · exact i1 s b ret hm
    · rintro c s i t (⟨-, rfl, -, -⟩ | hm)
      · rw [h3]
        omega
      · exact i2 c s i t hm
    · omega

/-- The size field of every batch a run submits is the number of tokens in the batch, when
that holds of the batch the loop starts with. -/
theorem loop_batch_sizes {σ F : Type} (e : Engine σ F) (opt : Options F)
    (smpl : List (llama_sampler F)) (st : LoopState σ)
    (h0 : st.batch.n_tokens = st.batch.token.length) :
    ∀ b ∈ submitted (loop e opt smpl st).calls, b.n_tokens = b.token.length := by
  refine loop_induction e opt smpl
    (fun st r => st.batch.n_tokens = st.batch.token.length →
      ∀ b ∈ submitted r.calls, b.n_tokens = b.token.length) ?_ ?_ st h0
  · intro st r h h0 b hb
    obtain ⟨-, h2⟩ := iteration_stop h
    rcases h2 with ⟨hc, -⟩ | ⟨-, -, hc, -⟩ | ⟨-, -, hc, -⟩ | ⟨-, -, hc, -⟩ <;>
      rw [hc] at hb <;> simp at hb <;> rw [hb] <;> exact h0
  · intro st out calls st1 r h ih h0 b hb
    obtain ⟨-, -, -, -, hc, hst1, -⟩ := iteration_next h
    subst hc hst1
    simp only [submitted_append, submitted_pass_calls, List.mem_append, List.mem_singleton] at hb
    rcases hb with hb | hb
    · rw [hb]; exact h0
    · exact ih (by simp [llama_batch_get_one]) b hb

/-- The context check lets a two-token prompt through on the scripted engine of capacity 8
when the position counter is 2147483646: the sum wraps around to a negative value. -/
theorem deep_passes (g : Int) :
    passes (echoEngine Unit 8)
      ⟨⟨2147483646, 0, 0⟩,
        llama_batch_get_one [5, 6] (toInt32 ([5, 6] : List llama_token).length), g⟩ := by
  simp only [passes, check_sum, add32, echoEngine, simEngine, llama_batch_get_one, toInt32,
    List.length_cons, List.length_nil]
  norm_num

/-- The first pass on the scripted engine of capacity `INT32_MAX` with a prompt of that many
tokens: the prompt fits exactly. -/
theorem full_first_passes :
    passes (echoEngine Unit 2147483647)
      ⟨simFresh, llama_batch_get_one (List.replicate 2147483647 5)
        (toInt32 (List.replicate 2147483647 (5 : llama_token)).length), 0⟩ := by
  simp only [passes, check_sum, add32, echoEngine, simEngine, simFresh, llama_batch_get_one,
    toInt32, List.length_replicate]
  norm_num

/-- The second pass of that run: the counter is `INT32_MAX`, and the check lets the one-token
batch through because the sum wraps around. -/
theorem full_second_passes :
    passes (echoEngine Unit 2147483647)
      ⟨(drawn (echoEngine Unit 2147483647) (sampler_chain (simOptions 2))
          ⟨simFresh, llama_batch_get_one (List.replicate 2147483647 5)
            (toInt32 (List.replicate 2147483647 (5 : llama_token)).length), 0⟩).1,
        llama_batch_get_one [(drawn (echoEngine Unit 2147483647) (sampler_chain (simOptions 2))
          ⟨simFresh, llama_batch_get_one (List.replicate 2147483647 5)
            (toInt32 (List.replicate 2147483647 (5 : llama_token)).length), 0⟩).2] 1,
        0 + 1⟩ := by
  simp only [passes, check_sum, add32, drawn, decoded, echoEngine, simEngine, simFresh,
    llama_batch_get_one, toInt32, List.length_replicate]
  norm_num

/-- C4 (counterexample): (1) on the scripted engine of capacity 8 with the position counter
at 2147483646, the two-token prompt is decoded although counter plus batch size is far above
the capacity, because the `int` sum of the check wraps around; (2) on the scripted engine of
capacity 2147483647, whose counter starts at 0 and grows by the batch size on every decode, a
prompt of 2147483647 tokens is decoded and then the sampled token is decoded too, so that
2147483648 tokens are submitted and the counter ends above the capacity. -/
theorem context_check_wraps :
    (Call.decode (⟨2147483646, 0, 0⟩ : Sim) (llama_batch_get_one [5, 6] 2) 0 ∈
        (generate_stream (echoEngine Unit 8) ⟨2147483646, 0, 0⟩ [5, 6] (simOptions 1)).calls ∧
      ¬ ((echoEngine Unit 8).llama_memory_seq_pos_max ⟨2147483646, 0, 0⟩ 0 + 1 +
          (llama_batch_get_one [5, 6] 2).n_tokens ≤
        ((echoEngine Unit 8).llama_n_ctx ⟨2147483646, 0, 0⟩ : Int))) ∧
    ((echoEngine Unit 2147483647).llama_memory_seq_pos_max simFresh 0 + 1 = 0 ∧
      ((submitted (generate_stream (echoEngine Unit 2147483647) simFresh
        (List.replicate 2147483647 5) (simOptions 2)).calls).map fun b => b.n_tokens).sum =
          2147483648 ∧
      ¬ ((echoEngine Unit 2147483647).llama_memory_seq_pos_max
          (generate_stream (echoEngine Unit 2147483647) simFresh
            (List.replicate 2147483647 5) (simOptions 2)).ctx 0 + 1 ≤
        ((2147483647 : Nat) : Int))) := by
  refine ⟨⟨?_, ?_⟩, ?_, ?_, ?_⟩
  · have h := (loop_first_decode (echoEngine Unit 8) (simOptions 1)
      (sampler_chain (simOptions 1)) _ (deep_passes 0)).1
    simp only [toInt32_two] at h
    simp only [generate_stream, toInt32_two]
    exact List.mem_of_mem_head? h
  · simp only [echoEngine, simEngine, llama_batch_get_one]
    norm_num
  · simp only [echoEngine, simEngine, simFresh]
    norm_num
  · simp only [generate_stream]
    rw [loop_next (iteration_continue (simOptions 2) (sampler_chain (simOptions 2))
      full_first_passes rfl rfl (by decide)),
      loop_stop (iteration_budget (simOptions 2) (sampler_chain (simOptions 2))
        full_second_passes rfl rfl (by decide))]
    simp only [submitted_append, submitted_pass_calls, List.singleton_append, List.map_cons,
      List.map_nil, List.sum_cons, List.sum_nil, llama_batch_get_one, toInt32,
      List.length_replicate]
    norm_num
  · simp only [generate_stream]
    rw [loop_next (iteration_continue (simOptions 2) (sampler_chain (simOptions 2))
      full_first_passes rfl rfl (by decide)),
      loop_stop (iteration_budget (simOptions 2) (sampler_chain (simOptions 2))
        full_second_passes rfl rfl (by decide))]
    simp only [drawn, decoded, echoEngine, simEngine, simFresh, llama_batch_get_one, toInt32,
      List.length_replicate]
    norm_num

/-- C4 (amended): in every run of `generate_stream`, every decode call is issued in a state
where the sum `n_ctx_used + batch.n_tokens`, as the program computes it in `int` arithmetic,
is at most the capacity read as an `int`; whenever neither addition of that check overflows,
this is position counter (`llama_memory_seq_pos_max + 1`) plus batch size at most the context
capacity; when the prompt length fits an `int`, the batch size is the number of tokens in the
batch; hence, for an engine of fixed capacity `C` that does not read as `INT32_MAX`, whose
position counter starts at 0, grows by the batch size on each decode that returns 0 and is
otherwise unchanged, the counter is at most the capacity in every state in which a call is
issued and in the final state, and the sizes of all batches submitted add up to at most the
capacity. -/
theorem context_window {σ F : Type} (e : Engine σ F) (ctx : σ) (input : List llama_token)
    (opt : Options F) :
    (∀ s b ret, Call.decode s b ret ∈ (generate_stream e ctx input opt).calls →
      check_sum e s b ≤ toInt32 (e.llama_n_ctx s) ∧
      (INT32_MIN ≤ e.llama_memory_seq_pos_max s 0 + 1 ∧
          e.llama_memory_seq_pos_max s 0 + 1 ≤ INT32_MAX →
        INT32_MIN ≤ e.llama_memory_seq_pos_max s 0 + 1 + b.n_tokens ∧
          e.llama_memory_seq_pos_max s 0 + 1 + b.n_tokens ≤ INT32_MAX →
        e.llama_memory_seq_pos_max s 0 + 1 + b.n_tokens ≤ (e.llama_n_ctx s : Int))) ∧
    ((input.length : Int) ≤ INT32_MAX →
      ∀ b ∈ submitted (generate_stream e ctx input opt).calls, b.n_tokens = b.token.length) ∧
    (∀ C : Nat, (∀ s, e.llama_n_ctx s = C) → toInt32 C ≠ INT32_MAX →
      e.llama_memory_seq_pos_max ctx 0 + 1 = 0 →
      (∀ s b, (e.llama_decode s b).2 = 0 →
        e.llama_memory_seq_pos_max (e.llama_decode s b).1 0 =
          e.llama_memory_seq_pos_max s 0 + b.n_tokens) →
      (∀ s b, (e.llama_decode s b).2 ≠ 0 →
        e.llama_memory_seq_pos_max (e.llama_decode s b).1 0 =
          e.llama_memory_seq_pos_max s 0) →
      (∀ c s i, e.llama_memory_seq_pos_max (e.llama_sampler_sample c s i).1 0 =
        e.llama_memory_seq_pos_max s 0) →
      (∀ s b ret, Call.decode s b ret ∈ (generate_stream e ctx input opt).calls →
        e.llama_memory_seq_pos_max s 0 + 1 ≤ C) ∧
      (∀ c s i t, Call.sample c s i t ∈ (generate_stream e ctx input opt).calls →
        e.llama_memory_seq_pos_max s 0 + 1 ≤ C) ∧
      e.llama_memory_seq_pos_max (generate_stream e ctx input opt).ctx 0 + 1 ≤ C ∧
      ((submitted (generate_stream e ctx input opt).calls).map fun b => b.n_tokens).sum ≤ C) := by
  refine ⟨?_, ?_, ?_⟩
  · intro s b ret hm
    have h := (loop_decode_passes e opt (sampler_chain opt) _ s b ret hm).1
    refine ⟨h, ?_⟩
    intro h1 h2
    have hr : in_range e ⟨s, b, 0⟩ := ⟨h1, h2⟩
    have hsum := check_sum_in_range hr
    simp only at hsum
    have hle := toInt32_le_self (e.llama_n_ctx s)
    omega
  · intro hlen
    have hn := toInt32_of_range input.length (by unfold INT32_MIN; omega) hlen
    exact loop_batch_sizes e opt (sampler_chain opt) _ (by simp [llama_batch_get_one, hn])
  · intro C hcap hC h0 hok hfail hsample
    have hlo : -2147483648 ≤ toInt32 (input.length : Int) := by
      unfold toInt32
      omega
    have hhi := toInt32_le_max (input.length : Int)
    have h := loop_counter_bounded e opt (sampler_chain opt) C hcap hC hok hfail hsample
      ⟨ctx, llama_batch_get_one input (toInt32 input.length), 0⟩
      (by simp only [h0]; omega)
      (by simp only [h0, llama_batch_get_one]; omega)
    simp only [h0, zero_add] at h
    exact h

/-- The first engine call of a run of the always-succeeding scripted engine on a fresh context
of capacity 8 is the decode of the prompt. -/
theorem echo_first_call (opt : Options Unit) :
    Call.decode simFresh (llama_batch_get_one [5, 6] 2) 0 ∈
      (generate_stream (echoEngine Unit 8) simFresh [5, 6] opt).calls := by
  have h := (loop_first_decode (echoEngine Unit 8) opt (sampler_chain opt) _
    (passes_of_fits (echo_in_range Unit) (echo_fits Unit))).1
  simp only [toInt32_two] at h
  simp only [generate_stream, toInt32_two]
  exact List.mem_of_mem_head? h

/-- C4 (witness): the scripted engine of capacity 8 is such an engine, a two-token prompt fits
an `int`, and the check on the first decode call of the run does not overflow. -/
theorem context_window_witness :
    (Call.decode simFresh (llama_batch_get_one [5, 6] 2) 0 ∈
        (generate_stream (echoEngine Unit 8) simFresh [5, 6] (simOptions 3)).calls ∧
      (INT32_MIN ≤ (echoEngine Unit 8).llama_memory_seq_pos_max simFresh 0 + 1 ∧
        (echoEngine Unit 8).llama_memory_seq_pos_max simFresh 0 + 1 ≤ INT32_MAX) ∧
      (INT32_MIN ≤ (echoEngine Unit 8).llama_memory_seq_pos_max simFresh 0 + 1 +
          (llama_batch_get_one [5, 6] 2).n_tokens ∧
        (echoEngine Unit 8).llama_memory_seq_pos_max simFresh 0 + 1 +
          (llama_batch_get_one [5, 6] 2).n_tokens ≤ INT32_MAX) ∧
      (([5, 6] : List llama_token).length : Int) ≤ INT32_MAX ∧
      toInt32 ((8 : Nat) : Int) ≠ INT32_MAX) ∧
    (echoEngine Unit 8).llama_memory_seq_pos_max simFresh 0 + 1 +
      (llama_batch_get_one [5, 6] 2).n_tokens ≤
        ((echoEngine Unit 8).llama_n_ctx simFresh : Int) ∧
    (∀ b ∈ submitted (generate_stream (echoEngine Unit 8) simFresh [5, 6]
      (simOptions 3)).calls, b.n_tokens = b.token.length) ∧
    (∀ s b ret, Call.decode s b ret ∈ (generate_stream (echoEngine Unit 8) simFresh [5, 6]
        (simOptions 3)).calls →
      (echoEngine Unit 8).llama_memory_seq_pos_max s 0 + 1 ≤ (8 : Nat)) ∧
    (∀ c s i t, Call.sample c s i t ∈ (generate_stream (echoEngine Unit 8) simFresh [5, 6]
        (simOptions 3)).calls →
      (echoEngine Unit 8).llama_memory_seq_pos_max s 0 + 1 ≤ (8 : Nat)) ∧
    (echoEngine Unit 8).llama_memory_seq_pos_max
      (generate_stream (echoEngine Unit 8) simFresh [5, 6] (simOptions 3)).ctx 0 + 1 ≤
        (8 : Nat) ∧
    ((submitted (generate_stream (echoEngine Unit 8) simFresh [5, 6]
      (simOptions 3)).calls).map fun b => b.n_tokens).sum ≤ (8 : Nat) :=
  ⟨⟨echo_first_call (simOptions 3), by decide, by decide, by decide,
      by simp only [toInt32, INT32_MAX]; norm_num⟩,
    ((context_window (echoEngine Unit 8) simFresh [5, 6] (simOptions 3)).1 simFresh
      (llama_batch_get_one [5, 6] 2) 0 (echo_first_call (simOptions 3))).2 (by decide)
      (by decide),
    (context_window (echoEngine Unit 8) simFresh [5, 6] (simOptions 3)).2.1 (by decide),
    (context_window (echoEngine Unit 8) simFresh [5, 6] (simOptions 3)).2.2 8
      (fun _ => rfl) (by simp only [toInt32, INT32_MAX]; norm_num) (by decide)
      (fun s b _ => by simp only [echoEngine, simEngine, if_true]; omega)
      (fun s b h => absurd rfl h)
      (fun _ _ _ => rfl)⟩

/-! ## What is streamed, and the sampler chain -/

/-- The tokens of a run that are written to the output: the sampled tokens up to the first
terminal one. -/
theorem loop_stream {σ F : Type} (e : Engine σ F) (opt : Options F)
    (smpl : List (llama_sampler F)) (st : LoopState σ) :
    fragments (loop e opt smpl st).out =
      ((sampled (loop e opt smpl st).calls).takeWhile fun t => !terminal e t).map (piece_of e) ∧
    submitted (loop e opt smpl st).calls <+:
      st.batch :: (((sampled (loop e opt smpl st).calls).takeWhile
        fun t => !terminal e t).map fun t => llama_batch_get_one [t] 1) := by
  refine loop_induction e opt smpl
    (fun st r =>
      fragments r.out = ((sampled r.calls).takeWhile fun t => !terminal e t).map (piece_of e) ∧
      submitted r.calls <+:
        st.batch :: (((sampled r.calls).takeWhile fun t => !terminal e t).map
          fun t => llama_batch_get_one [t] 1)) ?_ ?_ st
  · intro st r h
    obtain ⟨-, h2⟩ := iteration_stop h
    rcases h2 with ⟨hc, ho, -⟩ | ⟨-, -, hc, ho, -⟩ | ⟨-, -, hc, ht, ho, -⟩ |
      ⟨-, -, hc, ht, ho, -⟩
    · simp [hc, ho]
    · simp [hc, ho]
    · simp [hc, ho, ht, List.takeWhile]
    · simp only [hc, ho, fragments_stream_piece, sampled_pass_calls, submitted_pass_calls,
        List.takeWhile, ht, Bool.not_false, List.map_cons, List.map_nil, true_and]
      exact List.prefix_append [st.batch] _
  · intro st out calls st1 r h ih
    obtain ⟨-, -, ht, ho, hc, hst1, -⟩ := iteration_next h
    subst ho hc hst1
    obtain ⟨i1, i2⟩ := ih
    simp only at i2 ⊢
    rw [fragments_append, fragments_stream_piece, sampled_append, sampled_pass_calls,
      submitted_append, submitted_pass_calls, i1]
    simp only [List.singleton_append, List.takeWhile_cons, ht, Bool.not_false, if_true,
      List.map_cons, true_and]
    exact (List.prefix_cons_inj st.batch).mpr i2

/-- Nothing is called after a sample call that returned a terminal token. -/
theorem loop_terminal_last {σ F : Type} (e : Engine σ F) (opt : Options F)
    (smpl : List (llama_sampler F)) (st : LoopState σ) :
    ∀ pre c s i tok post,
      (loop e opt smpl st).calls = pre ++ Call.sample c s i tok :: post →
      terminal e tok = true → post = [] := by
  refine loop_induction e opt smpl
    (fun _ r => ∀ pre c s i tok post, r.calls = pre ++ Call.sample c s i tok :: post →
      terminal e tok = true → post = []) ?_ ?_ st
  · intro st r h pre c s i tok post heq _
    obtain ⟨-, h2⟩ := iteration_stop h
    rcases h2 with ⟨hc, -⟩ | ⟨-, -, hc, -⟩ | ⟨-, -, hc, -⟩ | ⟨-, -, hc, -⟩ <;>
      rw [hc] at heq
    · simp at heq
    · rcases pre with _ | ⟨a, pre⟩
      · simp at heq
      · simp at heq
    · rcases pre with _ | ⟨a, _ | ⟨b, pre⟩⟩
      · simp [pass_calls] at heq
      · simp only [pass_calls, List.singleton_append, List.cons.injEq, List.nil_eq] at heq
        exact heq.2.2
      · simp [pass_calls] at heq
    · rcases pre with _ | ⟨a, _ | ⟨b, pre⟩⟩
      · simp [pass_calls] at heq
      · simp only [pass_calls, List.singleton_append, List.cons.injEq, List.nil_eq] at heq
        exact heq.2.2
      · simp [pass_calls] at heq
  · intro st out calls st1 r h ih pre c s i tok post heq hterm
    obtain ⟨-, -, ht, -, hc, -, -⟩ := iteration_next h
    subst hc
    rcases pre with _ | ⟨a, _ | ⟨b, pre⟩⟩
    · simp [pass_calls] at heq
    · simp only [pass_calls, List.cons_append, List.nil_append, List.cons.injEq,
        Call.sample.injEq] at heq
      obtain ⟨-, ⟨-, -, -, rfl⟩, -⟩ := heq
      rw [hterm] at ht
      exact absurd ht (by simp)
    · simp only [pass_calls, List.cons_append, List.nil_append, List.cons.injEq] at heq
      exact ih pre c s i tok post heq.2.2 hterm

/-- Sampling always uses the chain the loop was started with, on the last position, and
happens once after each decode that returned 0 and nowhere else. -/
theorem loop_sampling {σ F : Type} (e : Engine σ F) (opt : Options F)
    (smpl : List (llama_sampler F)) (st : LoopState σ) :
    (∀ c s i t, Call.sample c s i t ∈ (loop e opt smpl st).calls → c = smpl ∧ i = -1) ∧
    alternates (loop e opt smpl st).calls = true ∧
    (sampled (loop e opt smpl st).calls).length =
      ((statuses (loop e opt smpl st).calls).filter fun ret => ret == 0).length := by
  refine loop_induction e opt smpl
    (fun _ r => (∀ c s i t, Call.sample c s i t ∈ r.calls → c = smpl ∧ i = -1) ∧
      alternates r.calls = true ∧
      (sampled r.calls).length = ((statuses r.calls).filter fun ret => ret == 0).length)
    ?_ ?_ st
  · intro st r h
    obtain ⟨-, h2⟩ := iteration_stop h
    rcases h2 with ⟨hc, -⟩ | ⟨-, hd, hc, -⟩ | ⟨-, -, hc, -⟩ | ⟨-, -, hc, -⟩ <;>
      rw [hc]
    · simp [alternates]
    · simp [alternates, hd]
    · simp only [sampled_pass_calls, statuses_pass_calls]
      simp only [pass_calls, alternates, List.mem_cons, Call.sample.injEq, List.not_mem_nil,
        or_false, reduceCtorEq, false_or, beq_self_eq_true, Bool.and_self, List.filter_cons,
        List.filter_nil, if_true, List.length_singleton, and_true]
      intro c s i t hm
      exact ⟨hm.1, hm.2.2.1⟩
    · simp only [sampled_pass_calls, statuses_pass_calls]
      simp only [pass_calls, alternates, List.mem_cons, Call.sample.injEq, List.not_mem_nil,
        or_false, reduceCtorEq, false_or, beq_self_eq_true, Bool.and_self, List.filter_cons,
        List.filter_nil, if_true, List.length_singleton, and_true]
      intro c s i t hm
      exact ⟨hm.1, hm.2.2.1⟩
  · intro st out calls st1 r h ih
    obtain ⟨-, -, -, -, hc, -, -⟩ := iteration_next h
    subst hc
    obtain ⟨i1, i2, i3⟩ := ih
    refine ⟨?_, ?_, ?_⟩
    · intro c s i t hm
      simp only [pass_calls, List.mem_append, List.mem_cons, Call.sample.injEq,
        List.not_mem_nil, or_false, reduceCtorEq, false_or] at hm
      rcases hm with ⟨rfl, -, rfl, -⟩ | hm
      · exact ⟨rfl, rfl⟩
      · exact i1 c s i t hm
    · simp [pass_calls, alternates, i2]
    · simp only [sampled_append, sampled_pass_calls, statuses_append, statuses_pass_calls,
        List.length_append, List.filter_append, i3]
      simp

/-- A decode call that returns a non-zero status is the last call of the run, the run ends
through the decode-failure `break` with the one diagnostic line for it, and the fragments
written are those of the tokens sampled before it, one pass each. -/
theorem loop_decode_failure {σ F : Type} (e : Engine σ F) (opt : Options F)
    (smpl : List (llama_sampler F)) (st : LoopState σ) :
    ∀ pre s b ret post,
      (loop e opt smpl st).calls = pre ++ Call.decode s b ret :: post → ret ≠ 0 →
      post = [] ∧ (loop e opt smpl st).stop = Stop.decode_failed ∧
      (loop e opt smpl st).err = [Diag.decode_failed ret] ∧
      fragments (loop e opt smpl st).out = (sampled pre).map (piece_of e) ∧
      (loop e opt smpl st).iterations = (sampled pre).length + 1 := by
  refine loop_induction e opt smpl
    (fun _ r => ∀ pre s b ret post, r.calls = pre ++ Call.decode s b ret :: post → ret ≠ 0 →
      post = [] ∧ r.stop = Stop.decode_failed ∧ r.err = [Diag.decode_failed ret] ∧
      fragments r.out = (sampled pre).map (piece_of e) ∧
      r.iterations = (sampled pre).length + 1) ?_ ?_ st
  · intro st r h pre s b ret post heq hret
    obtain ⟨hi, h2⟩ := iteration_stop h
    rcases h2 with ⟨hc, -⟩ | ⟨-, -, hc, ho, he, -, hs⟩ | ⟨-, -, hc, -⟩ |
      ⟨-, -, hc, -⟩ <;> rw [hc] at heq
    · simp at heq
    · rcases pre with _ | ⟨a, pre⟩
      · simp only [List.nil_append, List.cons.injEq, Call.decode.injEq, List.nil_eq] at heq
        obtain ⟨⟨-, -, rfl⟩, rfl⟩ := heq
        simp [hs, he, ho, hi]
      · simp at heq
    · rcases pre with _ | ⟨a, _ | ⟨b, pre⟩⟩
      · simp only [pass_calls, List.nil_append, List.cons.injEq, Call.decode.injEq] at heq
        exact absurd heq.1.2.2.symm hret
      · simp [pass_calls] at heq
      · simp [pass_calls] at heq
    · rcases pre with _ | ⟨a, _ | ⟨b, pre⟩⟩
      · simp only [pass_calls, List.nil_append, List.cons.injEq, Call.decode.injEq] at heq
        exact absurd heq.1.2.2.symm hret
      · simp [pass_calls] at heq
      · simp [pass_calls] at heq
  · intro st out calls st1 r h ih pre s b ret post heq hret
    obtain ⟨-, -, -, ho, hc, -, -⟩ := iteration_next h
    subst ho hc
    rcases pre with _ | ⟨a, _ | ⟨b, pre⟩⟩
    · simp only [pass_calls, List.nil_append, List.cons_append, List.cons.injEq,
        Call.decode.injEq] at heq
      exact absurd heq.1.2.2.symm hret
    · simp [pass_calls] at heq
    · simp only [pass_calls, List.cons_append, List.nil_append, List.cons.injEq] at heq
      obtain ⟨rfl, rfl, heq⟩ := heq
      obtain ⟨i1, i2, i3, i4, i5⟩ := ih pre s b ret post heq hret
      refine ⟨i1, i2, i3, ?_, ?_⟩
      · simp [fragments_append, i4, sampled]
      · simp [i5, sampled]

/-! ## Concrete runs of the scripted engines -/

/-- The run of the scripted engine whose first sampled token is the end-of-generation token:
one decode, one sample call, nothing written. -/
theorem eog_run (opt : Options Unit) :
    generate_stream (eogEngine Unit 8) simFresh [5, 6] opt =
      ⟨[], [],
        [Call.decode simFresh (llama_batch_get_one [5, 6] 2) 0,
          Call.sample (sampler_chain opt) ⟨2, 1, 0⟩ (-1) 1],
        ⟨2, 1, 1⟩, Stop.eog, 1⟩ := by
  have hr : in_range (eogEngine Unit 8)
      ⟨simFresh, llama_batch_get_one [5, 6] (toInt32 ([5, 6] : List llama_token).length), 0⟩ :=
    sim_in_range Unit _ _ _ 0
  have hf : fits (eogEngine Unit 8)
      ⟨simFresh, llama_batch_get_one [5, 6] (toInt32 ([5, 6] : List llama_token).length), 0⟩ :=
    sim_fits Unit _ _ _ 0
  simp only [generate_stream]
  rw [loop_stop (iteration_eog opt (sampler_chain opt) (passes_of_fits hr hf) rfl
    rfl)]
  simp only [pass_calls, drawn, decoded, eogEngine, simEngine, simFresh, llama_batch_get_one,
    toInt32_two]
  simp

/-- The run of the scripted engine whose first decode returns status 1: one decode, no sample
call, nothing written, one diagnostic line. -/
theorem fail_run (opt : Options Unit) :
    generate_stream (failEngine Unit 8) simFresh [5, 6] opt =
      ⟨[], [Diag.decode_failed 1], [Call.decode simFresh (llama_batch_get_one [5, 6] 2) 1],
        ⟨0, 1, 0⟩, Stop.decode_failed, 1⟩ := by
  have hr : in_range (failEngine Unit 8)
      ⟨simFresh, llama_batch_get_one [5, 6] (toInt32 ([5, 6] : List llama_token).length), 0⟩ :=
    sim_in_range Unit _ _ _ 0
  have hf : fits (failEngine Unit 8)
      ⟨simFresh, llama_batch_get_one [5, 6] (toInt32 ([5, 6] : List llama_token).length), 0⟩ :=
    sim_fits Unit _ _ _ 0
  have hd : (decoded (failEngine Unit 8)
      ⟨simFresh, llama_batch_get_one [5, 6] (toInt32 ([5, 6] : List llama_token).length),
        0⟩).2 ≠ 0 := by
    simp [decoded, failEngine, simEngine]
  simp only [generate_stream]
  rw [loop_stop (iteration_decode_failed opt (sampler_chain opt)
    (passes_of_fits hr hf) hd)]
  simp only [decoded, failEngine, simEngine, simFresh, llama_batch_get_one, toInt32_two]
  simp

/-- The run of the always-succeeding scripted engine with a budget of at most one token. -/
theorem echo_run (opt : Options Unit) (hb : opt.n_predict ≤ 1) :
    generate_stream (echoEngine Unit 8) simFresh [5, 6] opt =
      ⟨stream_piece opt.color ['h'], [],
        [Call.decode simFresh (llama_batch_get_one [5, 6] 2) 0,
          Call.sample (sampler_chain opt) ⟨2, 1, 0⟩ (-1) 7],
        ⟨2, 1, 1⟩, Stop.budget, 1⟩ := by
  simp only [generate_stream]
  rw [echo_first_pass opt hb]
  simp only [toInt32_two]
  simp [piece_of, echoEngine, simEngine]

/-! ## Stream content -/

/-- C7: for every run of `generate_stream`, the fragments written are exactly the texts of the
sampled tokens, in sampling order and one per token, up to but not including the first
sampled token that is an end-of-generation token or whose detokenization reports a negative
length; no engine call follows the sample call that returned that token; and the batches
submitted after the prompt are single tokens that were written, in order, so that token is
never fed back. -/
theorem stream_content {σ F : Type} (e : Engine σ F) (ctx : σ) (input : List llama_token)
    (opt : Options F) :
    fragments (generate_stream e ctx input opt).out =
      ((sampled (generate_stream e ctx input opt).calls).takeWhile
        fun t => !terminal e t).map (piece_of e) ∧
    (∀ pre c s i tok post,
      (generate_stream e ctx input opt).calls = pre ++ Call.sample c s i tok :: post →
      terminal e tok = true → post = []) ∧
    submitted (generate_stream e ctx input opt).calls <+:
      llama_batch_get_one input (toInt32 input.length) ::
        (((sampled (generate_stream e ctx input opt).calls).takeWhile
          fun t => !terminal e t).map fun t => llama_batch_get_one [t] 1) :=
  ⟨(loop_stream e opt (sampler_chain opt) _).1,
    loop_terminal_last e opt (sampler_chain opt) _,
    (loop_stream e opt (sampler_chain opt) _).2⟩

/-- C7 (witness): on the scripted engine whose first sampled token is the end-of-generation
token, the sample call is the last call and nothing is written. -/
theorem stream_content_witness :
    ((generate_stream (eogEngine Unit 8) simFresh [5, 6] (simOptions 512)).calls =
        [Call.decode simFresh (llama_batch_get_one [5, 6] 2) 0] ++
          Call.sample (sampler_chain (simOptions 512)) ⟨2, 1, 0⟩ (-1) 1 :: [] ∧
      terminal (eogEngine Unit 8) 1 = true) ∧
    ([] : List (Call Sim Unit)) = [] ∧
    fragments (generate_stream (eogEngine Unit 8) simFresh [5, 6] (simOptions 512)).out =
      ((sampled (generate_stream (eogEngine Unit 8) simFresh [5, 6]
        (simOptions 512)).calls).takeWhile
          fun t => !terminal (eogEngine Unit 8) t).map (piece_of (eogEngine Unit 8)) :=
  ⟨⟨by rw [eog_run]; rfl, by decide⟩,
    (stream_content (eogEngine Unit 8) simFresh [5, 6] (simOptions 512)).2.1
      [Call.decode simFresh (llama_batch_get_one [5, 6] 2) 0]
      (sampler_chain (simOptions 512)) ⟨2, 1, 0⟩ (-1) 1 [] (by rw [eog_run]; rfl) (by decide),
    (stream_content (eogEngine Unit 8) simFresh [5, 6] (simOptions 512)).1⟩

/-! ## Sampler chain -/

/-- C9: for every options value the chain `generate_stream` builds is the five-stage list
top-k (`top_k`), top-p (`top_p`, min-keep 1), min-p (`min_p`, min-keep 1), temperature
(`temp`), final draw (`seed` as `uint32_t`), in that order; every sample call of the run uses
that same chain, on the last position; and the calls of the run alternate so that the chain is
applied once right after each decode that returned 0 and never otherwise. -/
theorem sampler_chain_order {σ F : Type} (e : Engine σ F) (ctx : σ) (input : List llama_token)
    (opt : Options F) :
    sampler_chain opt =
      [llama_sampler.top_k opt.top_k, llama_sampler.top_p opt.top_p 1,
        llama_sampler.min_p opt.min_p 1, llama_sampler.temp opt.temp,
        llama_sampler.dist (toUInt32 opt.seed)] ∧
    (∀ c s i t, Call.sample c s i t ∈ (generate_stream e ctx input opt).calls →
      c = sampler_chain opt ∧ i = -1) ∧
    alternates (generate_stream e ctx input opt).calls = true ∧
    (sampled (generate_stream e ctx input opt).calls).length =
      ((statuses (generate_stream e ctx input opt).calls).filter fun ret => ret == 0).length :=
  ⟨rfl, loop_sampling e opt (sampler_chain opt) _⟩

/-- C9 (witness): the one sample call of a run of the scripted engine uses the chain built
from the options. -/
theorem sampler_chain_order_witness :
    Call.sample (sampler_chain (simOptions 1)) ⟨2, 1, 0⟩ (-1) 7 ∈
      (generate_stream (echoEngine Unit 8) simFresh [5, 6] (simOptions 1)).calls ∧
    sampler_chain (simOptions 1) = sampler_chain (simOptions 1) ∧ (-1 : Int) = -1 :=
  ⟨by rw [echo_run (simOptions 1) (by decide)]; simp,
    (sampler_chain_order (echoEngine Unit 8) simFresh [5, 6] (simOptions 1)).2.1
      (sampler_chain (simOptions 1)) ⟨2, 1, 0⟩ (-1) 7
      (by rw [echo_run (simOptions 1) (by decide)]; simp)⟩

/-! ## Decode failure and what `main` makes of it -/

/-- When everything before `generate_stream` succeeds, `main` writes what `generate_stream`
writes and returns 0, whatever `generate_stream` did. -/
theorem main_generates {σ ρ τ F : Type} (w : World σ ρ τ F) (opt : Options F)
    (prompt : String) (formatted : List Char) (toks : List llama_token)
    (hparse : w.parse_args = ParseOutcome.ok opt)
    (hprompt : (match opt.prompt with | some p => some p | none => w.getline) = some prompt)
    (hmodel : w.model_loaded = true) (hctx : w.context_created = true)
    (hformat : (format_chat w.renderer w.renderer_state opt.system prompt).result =
      Result.ok formatted)
    (htok : (tokenize w.tokenizer w.tokenizer_state formatted true).result = Result.ok toks) :
    main w =
      ⟨(if opt.color then [Out.esc "\x1b[1;32m"] else []) ++
          (generate_stream w.engine w.ctx toks { opt with prompt := some prompt }).out ++
          (if opt.color then [Out.esc "\x1b[0m"] else []) ++ [Out.endl],
        (generate_stream w.engine w.ctx toks { opt with prompt := some prompt }).err,
        ExitStatus.code 0⟩ := by
  unfold main
  simp only [hparse, hprompt, hmodel, hctx, hformat, htok, Bool.not_true, Bool.false_eq_true,
    if_false]

/-- C6 (amended): in every run of `generate_stream`, a decode call that returns a non-zero
status is the last engine call (no token is sampled after it), the loop ends through the
decode-failure `break`, the fragments written are exactly those of the tokens sampled in the
earlier passes, and the failure is reported as one diagnostic line on the error stream;
`generate_stream` returns nothing, and whenever `main` gets as far as calling it, `main`
returns exit code 0 and its error stream is that of `generate_stream`. -/
theorem decode_failure {σ ρ τ F : Type} (e : Engine σ F) (ctx : σ) (input : List llama_token)
    (opt : Options F) :
    (∀ pre s b ret post,
      (generate_stream e ctx input opt).calls = pre ++ Call.decode s b ret :: post → ret ≠ 0 →
      post = [] ∧ (generate_stream e ctx input opt).stop = Stop.decode_failed ∧
      (generate_stream e ctx input opt).err = [Diag.decode_failed ret] ∧
      fragments (generate_stream e ctx input opt).out = (sampled pre).map (piece_of e) ∧
      (generate_stream e ctx input opt).iterations = (sampled pre).length + 1) ∧
    (∀ (w : World σ ρ τ F) (prompt : String) (formatted : List Char),
      w.parse_args = ParseOutcome.ok opt →
      (match opt.prompt with | some p => some p | none => w.getline) = some prompt →
      w.model_loaded = true → w.context_created = true →
      (format_chat w.renderer w.renderer_state opt.system prompt).result =
        Result.ok formatted →
      (tokenize w.tokenizer w.tokenizer_state formatted true).result = Result.ok input →
      (main w).exit = ExitStatus.code 0 ∧
      (main w).err =
        (generate_stream w.engine w.ctx input { opt with prompt := some prompt }).err ∧
      fragments (main w).out =
        fragments (generate_stream w.engine w.ctx input
          { opt with prompt := some prompt }).out) := by
  refine ⟨loop_decode_failure e opt (sampler_chain opt) _, ?_⟩
  intro w prompt formatted h1 h2 h3 h4 h5 h6
  rw [main_generates w opt prompt formatted input h1 h2 h3 h4 h5 h6]
  refine ⟨rfl, rfl, ?_⟩
  cases opt.color <;> simp [fragments]

/-- The scripted renderer formats the scripted conversation to the empty transcript. -/
theorem sim_format :
    (format_chat (simRenderer 0 0) 0 "You are terse." "2+2=").result = Result.ok [] := by
  simp [format_chat, simRenderer, write_buf]

/-- The scripted tokenizer turns the empty transcript into the tokens `[5, 6]`. -/
theorem sim_tokenize :
    (tokenize (simTokenizer (-2) 2 [5, 6]) 0 [] true).result = Result.ok [5, 6] := by
  simp only [tokenize, simTokenizer, neg32, INT32_MIN, INT32_MAX]
  norm_num [write_buf]

/-- The scripted world gets as far as `generate_stream`, with the prompt tokens `[5, 6]`. -/
theorem simWorld_generates (n_predict : Int) (cap : Nat) (rets : Nat → Int)
    (toks : Nat → llama_token) (eog : llama_token) :
    main (simWorld n_predict cap rets toks eog) =
      ⟨(generate_stream (simEngine Unit cap rets toks eog) simFresh [5, 6]
          (simOptions n_predict)).out ++ [Out.endl],
        (generate_stream (simEngine Unit cap rets toks eog) simFresh [5, 6]
          (simOptions n_predict)).err,
        ExitStatus.code 0⟩ := by
  rw [main_generates (simWorld n_predict cap rets toks eog) (simOptions n_predict) "2+2=" []
    [5, 6] rfl rfl rfl rfl sim_format sim_tokenize]
  simp [simWorld, simOptions]

/-- C6 (counterexample): the first decode fails in one world and the first sampled token is
the end-of-generation token in another; `main` ends with the same exit code 0 and the same
standard output in both, so nothing `main` gets back from `generate_stream` tells the failure
from a normal end. -/
theorem decode_failure_exits_zero :
    (generate_stream (failEngine Unit 8) simFresh [5, 6] (simOptions 512)).stop =
      Stop.decode_failed ∧
    (generate_stream (eogEngine Unit 8) simFresh [5, 6] (simOptions 512)).stop = Stop.eog ∧
    (main (simWorld 512 8 (fun _ => 1) (fun _ => 7) 1)).exit = ExitStatus.code 0 ∧
    (main (simWorld 512 8 (fun _ => 1) (fun _ => 7) 1)).exit =
      (main (simWorld 512 8 (fun _ => 0) (fun _ => 1) 1)).exit ∧
    (main (simWorld 512 8 (fun _ => 1) (fun _ => 7) 1)).out =
      (main (simWorld 512 8 (fun _ => 0) (fun _ => 1) 1)).out := by
  have hf := fail_run (simOptions 512)
  have he := eog_run (simOptions 512)
  refine ⟨by rw [hf], by rw [he], ?_, ?_, ?_⟩
  · rw [simWorld_generates]
  · rw [simWorld_generates, simWorld_generates]
  · rw [simWorld_generates, simWorld_generates]
    simp only [failEngine, eogEngine] at hf he
    rw [hf, he]

/-- C6 (witness): the run of the scripted engine whose first decode returns 1, inside the
scripted world. -/
theorem decode_failure_witness :
    ((generate_stream (failEngine Unit 8) simFresh [5, 6] (simOptions 512)).calls =
        [] ++ Call.decode simFresh (llama_batch_get_one [5, 6] 2) 1 :: [] ∧ (1 : Int) ≠ 0) ∧
    (([] : List (Call Sim Unit)) = [] ∧
      (generate_stream (failEngine Unit 8) simFresh [5, 6] (simOptions 512)).stop =
        Stop.decode_failed ∧
      (generate_stream (failEngine Unit 8) simFresh [5, 6] (simOptions 512)).err =
        [Diag.decode_failed 1] ∧
      fragments (generate_stream (failEngine Unit 8) simFresh [5, 6] (simOptions 512)).out =
        (sampled ([] : List (Call Sim Unit))).map (piece_of (failEngine Unit 8)) ∧
      (generate_stream (failEngine Unit 8) simFresh [5, 6] (simOptions 512)).iterations =
        (sampled ([] : List (Call Sim Unit))).length + 1) ∧
    ((main (simWorld 512 8 (fun _ => 1) (fun _ => 7) 1)).exit = ExitStatus.code 0 ∧
      (main (simWorld 512 8 (fun _ => 1) (fun _ => 7) 1)).err =
        (generate_stream (simWorld 512 8 (fun _ => 1) (fun _ => 7) 1).engine
          (simWorld 512 8 (fun _ => 1) (fun _ => 7) 1).ctx [5, 6]
          { simOptions 512 with prompt := some "2+2=" }).err ∧
      fragments (main (simWorld 512 8 (fun _ => 1) (fun _ => 7) 1)).out =
        fragments (generate_stream (simWorld 512 8 (fun _ => 1) (fun _ => 7) 1).engine
          (simWorld 512 8 (fun _ => 1) (fun _ => 7) 1).ctx [5, 6]
          { simOptions 512 with prompt := some "2+2=" }).out) :=
  ⟨⟨by rw [fail_run]; rfl, by decide⟩,
    (@decode_failure Sim Nat Nat Unit (failEngine Unit 8) simFresh [5, 6] (simOptions 512)).1
      [] simFresh (llama_batch_get_one [5, 6] 2) 1 [] (by rw [fail_run]; rfl) (by decide),
    (@decode_failure Sim Nat Nat Unit (failEngine Unit 8) simFresh [5, 6] (simOptions 512)).2
      (simWorld 512 8 (fun _ => 1) (fun _ => 7) 1) "2+2=" [] rfl rfl rfl rfl sim_format
      sim_tokenize⟩

/-! ## The two-pass protocols -/

theorem length_write_buf {α : Type} (buf w : List α) : (write_buf buf w).length = buf.length := by
  simp only [write_buf, List.length_append, List.length_take, List.length_drop]
  omega

/-- The run of `format_chat` with the renderer that answers 5 and then 3. -/
theorem short_fill_run :
    (format_chat (simRenderer 5 3) 0 "You are terse." "2+2=").calls =
      [⟨false, 0, 5⟩, ⟨true, 5, 3⟩] ∧
    (format_chat (simRenderer 5 3) 0 "You are terse." "2+2=").result =
      Result.ok (List.replicate 5 (Char.ofNat 0)) := by
  simp only [format_chat, simRenderer, toInt32, List.length_replicate]
  norm_num [write_buf]
  rfl

/-- C5 (counterexample): the sizing call answers 5 and the fill call answers 3, a value
different from the sizing length, and `format_chat` does not throw: it returns the 5-byte
buffer. -/
theorem format_chat_accepts_short_fill :
    (format_chat (simRenderer 5 3) 0 "You are terse." "2+2=").calls =
      [⟨false, 0, 5⟩, ⟨true, 5, 3⟩] ∧
    (format_chat (simRenderer 5 3) 0 "You are terse." "2+2=").result =
      Result.ok (List.replicate 5 (Char.ofNat 0)) ∧
    (3 : Int) ≠ 5 ∧
    ¬ ∃ what, (format_chat (simRenderer 5 3) 0 "You are terse." "2+2=").result =
      Result.throw what :=
  ⟨short_fill_run.1, short_fill_run.2, by decide, by rw [short_fill_run.2]; simp⟩

/-- C5 (amended): for every pair of messages and every renderer, `format_chat` throws if and
only if the sizing call returns a negative value or the fill call (made only after a
non-negative sizing result, with a buffer of that length) returns a negative value; a
non-negative fill result is accepted whatever it is; and whenever `format_chat` does not
throw it returns a string of exactly the sizing length. -/
theorem format_chat_failure {ρ : Type} (r : Renderer ρ) (s0 : ρ) (system user : String) :
    ((∃ what, (format_chat r s0 system user).result = Result.throw what) ↔
      ((r.llama_chat_apply_template s0 r.llama_model_chat_template
          [("system", system), ("user", user)] 2 true false 0).2.1 < 0 ∨
        (0 ≤ (r.llama_chat_apply_template s0 r.llama_model_chat_template
          [("system", system), ("user", user)] 2 true false 0).2.1 ∧
        (r.llama_chat_apply_template
          (r.llama_chat_apply_template s0 r.llama_model_chat_template
            [("system", system), ("user", user)] 2 true false 0).1
          r.llama_model_chat_template [("system", system), ("user", user)] 2 true true
          (toInt32 (r.llama_chat_apply_template s0 r.llama_model_chat_template
            [("system", system), ("user", user)] 2 true false 0).2.1)).2.1 < 0))) ∧
    ((∃ what, (format_chat r s0 system user).result = Result.throw what) ↔
      ∃ c ∈ (format_chat r s0 system user).calls, c.ret < 0) ∧
    ((¬ ∃ what, (format_chat r s0 system user).result = Result.throw what) →
      ∃ out, (format_chat r s0 system user).result = Result.ok out ∧
        (out.length : Int) = (r.llama_chat_apply_template s0 r.llama_model_chat_template
          [("system", system), ("user", user)] 2 true false 0).2.1) := by
  have h2 : toInt32 (([("system", system), ("user", user)] : List (String × String)).length : Int)
      = 2 := by
    simp only [toInt32, List.length_cons, List.length_nil]
    norm_num
  simp only [format_chat, h2, List.length_replicate]
  generalize r.llama_chat_apply_template s0 r.llama_model_chat_template
    [("system", system), ("user", user)] 2 true false 0 = c1
  by_cases hn : c1.2.1 < 0
  · simp [hn]
  · have hcast : ((c1.2.1.toNat : Nat) : Int) = c1.2.1 := Int.toNat_of_nonneg (by omega)
    simp only [hcast]
    generalize r.llama_chat_apply_template c1.1 r.llama_model_chat_template
      [("system", system), ("user", user)] 2 true true (toInt32 c1.2.1) = c2
    by_cases hw : c2.2.1 < 0
    · simp [hn, hw]
      omega
    · simp [hn, hw, length_write_buf]
      omega

/-- C5 (witness): with the renderer that answers 5 and then 3, `format_chat` does not throw
and returns 5 bytes. -/
theorem format_chat_failure_witness :
    (¬ ∃ what, (format_chat (simRenderer 5 3) 0 "You are terse." "2+2=").result =
      Result.throw what) ∧
    ∃ out, (format_chat (simRenderer 5 3) 0 "You are terse." "2+2=").result = Result.ok out ∧
      (out.length : Int) = ((simRenderer 5 3).llama_chat_apply_template 0
        (simRenderer 5 3).llama_model_chat_template
        [("system", "You are terse."), ("user", "2+2=")] 2 true false 0).2.1 :=
  ⟨by rw [short_fill_run.2]; simp,
    (format_chat_failure (simRenderer 5 3) 0 "You are terse." "2+2=").2.2
      (by rw [short_fill_run.2]; simp)⟩

/-- Every sequence `tokenize` returns has a length that fits an `int`, so the cast
`(int)input.size()` in `generate_stream` does not change the length of a prompt that `main`
passes on. -/
theorem tokenize_length_fits {τ : Type} (t : Tokenizer τ) (s0 : τ) (s : List Char)
    (add_bos : Bool) (ids : List llama_token)
    (h : (tokenize t s0 s add_bos).result = Result.ok ids) :
    (ids.length : Int) ≤ INT32_MAX := by
  simp only [tokenize] at h
  cases hneg : neg32 (t.llama_tokenize s0 s (toInt32 s.length) false 0 add_bos true).2.1 with
  | none => simp [hneg] at h
  | some n =>
    simp only [hneg] at h
    have hle : n ≤ INT32_MAX := by
      simp only [neg32] at hneg
      split_ifs at hneg with hc
      simp only [Option.some.injEq] at hneg
      omega
    split_ifs at h with h1 h2
    · simp only [Result.ok.injEq] at h
      subst h
      simp [INT32_MAX]
    · simp only [Result.ok.injEq] at h
      subst h
      rw [length_write_buf, List.length_replicate, Int.toNat_of_nonneg (by omega)]
      exact hle

/-- C8 (counterexample): the sizing call measures 3 tokens, the fill call reports 2 and
writes `[5, 6]`; `tokenize` succeeds and returns the three tokens `[5, 6, 0]`, not the two
tokens the fill call reported writing. -/
theorem tokenize_pads_short_fill :
    (tokenize (simTokenizer (-3) 2 [5, 6]) 0 [] true).calls =
      [⟨false, 0, -3⟩, ⟨true, 3, 2⟩] ∧
    (tokenize (simTokenizer (-3) 2 [5, 6]) 0 [] true).result = Result.ok [5, 6, 0] ∧
    (tokenize (simTokenizer (-3) 2 [5, 6]) 0 [] true).result ≠
      Result.ok (List.take 2 [5, 6]) := by
  have h : (tokenize (simTokenizer (-3) 2 [5, 6]) 0 [] true).calls =
        [⟨false, 0, -3⟩, ⟨true, 3, 2⟩] ∧
      (tokenize (simTokenizer (-3) 2 [5, 6]) 0 [] true).result = Result.ok [5, 6, 0] := by
    simp only [tokenize, simTokenizer, neg32, INT32_MIN, INT32_MAX, toInt32,
      List.length_replicate]
    norm_num [write_buf]
    decide
  refine ⟨h.1, h.2, ?_⟩
  rw [h.2]
  decide

/-- C8 (amended): for every transcript and every tokenizer, `tokenize` throws if and only if
the fill call is made (the measured count `n`, the negated sizing result, is positive) and
reports a negative count; when the sizing call returns 0 it returns the empty sequence after
that one call; and whenever it succeeds after a fill call, the returned sequence has exactly
the measured length `n` and is the zero-initialised buffer as the fill call left it: the
tokens the fill call wrote from the start of the buffer, followed by zeros where it wrote
none. -/
theorem tokenize_contract {τ : Type} (t : Tokenizer τ) (s0 : τ) (s : List Char)
    (add_bos : Bool) :
    ((∃ what, (tokenize t s0 s add_bos).result = Result.throw what) ↔
      ∃ n, neg32 (t.llama_tokenize s0 s (toInt32 s.length) false 0 add_bos true).2.1 = some n ∧
        0 < n ∧
        (t.llama_tokenize (t.llama_tokenize s0 s (toInt32 s.length) false 0 add_bos true).1 s
          (toInt32 s.length) true (toInt32 n) add_bos true).2.1 < 0) ∧
    ((t.llama_tokenize s0 s (toInt32 s.length) false 0 add_bos true).2.1 = 0 →
      (tokenize t s0 s add_bos).result = Result.ok [] ∧
      (tokenize t s0 s add_bos).calls = [⟨false, 0, 0⟩]) ∧
    (∀ ids, (tokenize t s0 s add_bos).result = Result.ok ids →
      (tokenize t s0 s add_bos).calls.length = 2 →
      ∃ n, neg32 (t.llama_tokenize s0 s (toInt32 s.length) false 0 add_bos true).2.1 = some n ∧
        0 < n ∧ (ids.length : Int) = n ∧
        ids = write_buf (List.replicate n.toNat 0)
          (t.llama_tokenize (t.llama_tokenize s0 s (toInt32 s.length) false 0 add_bos true).1 s
            (toInt32 s.length) true (toInt32 n) add_bos true).2.2 ∧
        0 ≤ (t.llama_tokenize (t.llama_tokenize s0 s (toInt32 s.length) false 0 add_bos true).1
          s (toInt32 s.length) true (toInt32 n) add_bos true).2.1) := by
  simp only [tokenize, List.length_replicate]
  generalize t.llama_tokenize s0 s (toInt32 s.length) false 0 add_bos true = c1
  cases hneg : neg32 c1.2.1 with
  | none =>
    refine ⟨by simp, ?_, by simp⟩
    intro h0
    rw [h0] at hneg
    exact absurd hneg (by simp [neg32, INT32_MIN, INT32_MAX])
  | some n =>
    by_cases hn : n ≤ 0
    · refine ⟨?_, ?_, by simp [hn]⟩
      · simp only [hn, if_true, reduceCtorEq, exists_false, Option.some.injEq, false_iff,
          not_exists, not_and, not_lt]
        intro m hm hpos
        omega
      · intro h0
        simp [hn, h0]
    · have hcast : ((n.toNat : Nat) : Int) = n := Int.toNat_of_nonneg (by omega)
      have hpos : 0 < n := by omega
      simp only [hn, if_false, hcast, Option.some.injEq, exists_eq_left', hpos, true_and]
      generalize t.llama_tokenize c1.1 s (toInt32 s.length) true (toInt32 n) add_bos true = c2
      have hc1 : c1.2.1 ≠ 0 := by
        intro h0
        rw [h0] at hneg
        simp [neg32, INT32_MIN, INT32_MAX] at hneg
        omega
      by_cases hw : c2.2.1 < 0
      · simp only [hw, if_true, Result.throw.injEq, exists_eq', reduceCtorEq,
          false_implies, implies_true, and_true, true_and]
        exact fun h0 => absurd h0 hc1
      · simp only [hw, if_false, reduceCtorEq, exists_false, Result.ok.injEq,
          List.length_cons, List.length_nil, true_and]
        refine ⟨fun h0 => absurd h0 hc1, ?_⟩
        intro ids hids _
        subst hids
        refine ⟨?_, rfl, by omega⟩
        rw [length_write_buf, List.length_replicate]
        exact hcast

/-- C8 (witness): a tokenizer whose sizing call returns 0, and one that measures 2 tokens and
fills them. -/
theorem tokenize_contract_witness :
    (((simTokenizer 0 0 []).llama_tokenize 0 [] (toInt32 ([] : List Char).length) false 0 true
        true).2.1 = 0 ∧
      (tokenize (simTokenizer 0 0 []) 0 [] true).result = Result.ok [] ∧
      (tokenize (simTokenizer 0 0 []) 0 [] true).calls = [⟨false, 0, 0⟩]) ∧
    ((tokenize (simTokenizer (-2) 2 [5, 6]) 0 [] true).result = Result.ok [5, 6] ∧
      (tokenize (simTokenizer (-2) 2 [5, 6]) 0 [] true).calls.length = 2) ∧
    ∃ n, neg32 ((simTokenizer (-2) 2 [5, 6]).llama_tokenize 0 [] (toInt32 ([] : List Char).length)
        false 0 true true).2.1 = some n ∧
      0 < n ∧ ((([5, 6] : List llama_token).length : Nat) : Int) = n ∧
      [5, 6] = write_buf (List.replicate n.toNat 0)
        ((simTokenizer (-2) 2 [5, 6]).llama_tokenize
          ((simTokenizer (-2) 2 [5, 6]).llama_tokenize 0 [] (toInt32 ([] : List Char).length)
            false 0 true true).1 []
          (toInt32 ([] : List Char).length) true (toInt32 n) true true).2.2 ∧
      0 ≤ ((simTokenizer (-2) 2 [5, 6]).llama_tokenize
          ((simTokenizer (-2) 2 [5, 6]).llama_tokenize 0 [] (toInt32 ([] : List Char).length)
            false 0 true true).1 []
          (toInt32 ([] : List Char).length) true (toInt32 n) true true).2.1 :=
  ⟨⟨rfl, (tokenize_contract (simTokenizer 0 0 []) 0 [] true).2.1 rfl⟩,
    ⟨sim_tokenize, by simp [tokenize, simTokenizer, neg32, INT32_MIN, INT32_MAX]⟩,
    (tokenize_contract (simTokenizer (-2) 2 [5, 6]) 0 [] true).2.2 [5, 6] sim_tokenize
      (by simp [tokenize, simTokenizer, neg32, INT32_MIN, INT32_MAX])⟩

end Gemma3
